import Mathlib

/-!
Shallow embedding of the Akili canonicalization-and-verification core
(`akili/verify/proof.py`, `akili/verify/models.py`, `akili/canonical/models.py`,
`akili/ingest/gemini_extract.py`, `akili/ingest/pipeline.py`), together with
theorems settling the specification claims about it.

Modelling conventions:
* Python floats are `Rat`.  Every rational in a definition or a concrete input
  is built with `mkRat` and the code paths only compare rationals (never add or
  multiply them), so concrete results evaluate inside the kernel.
* Python strings are `String` (lists of unicode scalar characters).
* Python dicts are insertion-ordered association lists.
* Fallible Python code is `Option`-valued; a `try/except: skip` is a `none`.
-/

namespace Akili

/-- Lowercasing of one character, as Python `str.lower` acts on the alphabet
this program manipulates: ASCII letters, plus GREEK CAPITAL MU (U+039C) which
lowers to GREEK SMALL MU (U+03BC).  Other characters are fixed points. -/
def pyLowerChar (c : Char) : Char :=
  if 'A' ≤ c ∧ c ≤ 'Z' then Char.ofNat (c.toNat + 32)
  else if c = 'Μ' then 'μ' else c

/-- Uppercasing of one character, as Python `str.upper` acts on the alphabet
this program manipulates: ASCII letters, plus MICRO SIGN (U+00B5) and GREEK
SMALL MU (U+03BC), both of which uppercase to GREEK CAPITAL MU (U+039C). -/
def pyUpperChar (c : Char) : Char :=
  if 'a' ≤ c ∧ c ≤ 'z' then Char.ofNat (c.toNat - 32)
  else if c = 'µ' ∨ c = 'μ' then 'Μ' else c

/-- Case folding used for `re.IGNORECASE` literal matching: Python's regex
engine folds MICRO SIGN, GREEK SMALL MU and GREEK CAPITAL MU together. -/
def foldChar (c : Char) : Char :=
  if 'A' ≤ c ∧ c ≤ 'Z' then Char.ofNat (c.toNat + 32)
  else if c = 'Μ' ∨ c = 'µ' then 'μ' else c

/-- Python `str.lower`. -/
def pyLower (s : String) : String := String.mk (s.data.map pyLowerChar)

/-- Python `str.upper`. -/
def pyUpper (s : String) : String := String.mk (s.data.map pyUpperChar)

/-- Trim whitespace from both ends of a character list. -/
def stripChars (cs : List Char) : List Char :=
  ((cs.dropWhile Char.isWhitespace).reverse.dropWhile Char.isWhitespace).reverse

/-- Python `str.strip()`. -/
def pyStrip (s : String) : String := String.mk (stripChars s.data)

/-- Python `needle in haystack` substring test, on character lists. -/
def listContains (h n : List Char) : Bool :=
  (List.range (h.length + 1)).any (fun i => n.isPrefixOf (h.drop i))

/-- Python `needle in haystack` substring test. -/
def strContains (h n : String) : Bool := listContains h.data n.data

/-- Python `str.endswith`. -/
def strEndsWith (s suf : String) : Bool := suf.data.isSuffixOf s.data

/-- Helper for `runsOf`: `acc` holds the current (reversed) run. -/
def runsOfAux (p : Char → Bool) : List Char → List Char → List (List Char)
  | [], acc => if acc.isEmpty then [] else [acc.reverse]
  | c :: cs, acc =>
    if p c then runsOfAux p cs (c :: acc)
    else if acc.isEmpty then runsOfAux p cs [] else acc.reverse :: runsOfAux p cs []

/-- Maximal runs of characters satisfying `p` (models `re.findall` of a
character class, and `str.split()`). -/
def runsOf (p : Char → Bool) (cs : List Char) : List (List Char) := runsOfAux p cs []

/-- Python `str.split()`: split on whitespace runs, dropping empty pieces. -/
def splitWs (cs : List Char) : List (List Char) := runsOf (fun c => !c.isWhitespace) cs

/-- The character for a decimal digit. -/
def digitChar (d : Nat) : Char := Char.ofNat (48 + d)

/-- The value of a decimal digit character. -/
def digitVal (c : Char) : Nat := c.toNat - 48

/-- Decimal digits of `n` (most significant first), by explicit fuel so that
the kernel can evaluate it. -/
def natDigitsAux : Nat → Nat → List Char
  | 0, _ => []
  | fuel + 1, n => if n = 0 then [] else natDigitsAux fuel (n / 10) ++ [digitChar (n % 10)]

/-- Decimal digit string of a natural number, as Python prints integers. -/
def natStr (n : Nat) : String :=
  if n = 0 then "0" else String.mk (natDigitsAux n n)

/-- Value of a decimal digit string (inverse of `natStr`). -/
def digitsVal (cs : List Char) : Nat := cs.foldl (fun a c => a * 10 + digitVal c) 0

theorem digitVal_digitChar {d : Nat} (h : d < 10) : digitVal (digitChar d) = d := by
  interval_cases d <;> decide

theorem digitsVal_append_singleton (cs : List Char) (c : Char) :
    digitsVal (cs ++ [c]) = digitsVal cs * 10 + digitVal c := by
  simp [digitsVal]

theorem digitsVal_natDigitsAux : ∀ fuel n, n ≤ fuel → digitsVal (natDigitsAux fuel n) = n := by
  intro fuel
  induction fuel with
  | zero =>
    intro n hn
    interval_cases n
    simp [natDigitsAux, digitsVal]
  | succ f ih =>
    intro n hn
    by_cases h0 : n = 0
    · simp [natDigitsAux, h0, digitsVal]
    · have hdiv : n / 10 ≤ f := by
        have : n / 10 < n := Nat.div_lt_self (Nat.pos_of_ne_zero h0) (by norm_num)
        omega
      have hmod : n % 10 < 10 := Nat.mod_lt _ (by norm_num)
      simp only [natDigitsAux, h0, if_false]
      rw [digitsVal_append_singleton, ih _ hdiv, digitVal_digitChar hmod]
      omega

theorem digitsVal_natStr (n : Nat) : digitsVal (natStr n).data = n := by
  by_cases h0 : n = 0
  · simp [natStr, h0]; decide
  · simp only [natStr, h0, if_false]
    exact digitsVal_natDigitsAux n n le_rfl

theorem natStr_injective {m n : Nat} (h : natStr m = natStr n) : m = n := by
  have := congrArg (fun s => digitsVal s.data) h
  simpa [digitsVal_natStr] using this

/-- Python `str()` of an integer. -/
def intStr (i : Int) : String :=
  if i < 0 then "-" ++ natStr i.natAbs else natStr i.natAbs

/-- Parse an optionally signed decimal literal, as Python `float(str)` does on
the plain forms `123`, `12.5`, `.5`, `5.`, with surrounding whitespace.
(Exponents, `inf`/`nan` and underscore separators are not modelled; the
program's data never takes those forms.) -/
def parseFloat (s : String) : Option Rat :=
  let cs0 := stripChars s.data
  let sign : Int := match cs0 with
    | '-' :: _ => -1
    | _ => 1
  let cs := match cs0 with
    | '-' :: t => t
    | '+' :: t => t
    | _ => cs0
  let ip := cs.takeWhile Char.isDigit
  let rest := cs.drop ip.length
  match rest with
  | [] => if ip.isEmpty then none else some (mkRat (sign * (digitsVal ip : Int)) 1)
  | '.' :: t =>
    let fp := t.takeWhile Char.isDigit
    let rest2 := t.drop fp.length
    if rest2.isEmpty ∧ ¬ (ip.isEmpty ∧ fp.isEmpty) then
      some (mkRat (sign * ((digitsVal ip * 10 ^ fp.length + digitsVal fp : Nat) : Int))
        (10 ^ fp.length))
    else none
  | _ => none

/-- Least `k ≤ 40` with `d ∣ 10 ^ k` (covers every denominator a parsed
decimal can have). -/
def pow10Exp (d : Nat) : Option Nat := (List.range 40).find? (fun k => 10 ^ k % d == 0)

/-- Left-pad a digit list with zeros to width `k`. -/
def padZeros (s : List Char) (k : Nat) : List Char := List.replicate (k - s.length) '0' ++ s

/-- Python `str`/`repr` of a float, for the rationals this program produces:
integral values print as `n.0`, terminating decimals print their digits
(reduced, so trailing zeros are already gone).  A non-terminating rational
— impossible for parsed decimals — falls back to a fraction form. -/
def floatRepr (q : Rat) : String :=
  let sign := if q.num < 0 then "-" else ""
  let n := q.num.natAbs
  if q.den = 1 then sign ++ natStr n ++ ".0"
  else match pow10Exp q.den with
    | some k =>
      let scaled := n * (10 ^ k / q.den)
      sign ++ natStr (scaled / 10 ^ k) ++ "." ++
        String.mk (padZeros (natStr (scaled % 10 ^ k)).data k)
    | none => sign ++ natStr n ++ "/" ++ natStr q.den

/-- A Python `str | float` value (the type of `Unit.value` and
`GridCell.value` in the canonical schema). -/
inductive PyVal where
  | vstr (s : String)
  | vnum (q : Rat)
deriving DecidableEq

/-- Python `str()` of a `str | float` value. -/
def pyStr : PyVal → String
  | .vstr s => s
  | .vnum q => floatRepr q

/-- Python `float()` coercion of a `str | float` value (`none` = raises). -/
def pyFloat : PyVal → Option Rat
  | .vstr s => parseFloat s
  | .vnum q => some q

/-- Python truthiness of an optional string (`None` and `""` are falsy). -/
def optStrTruthy : Option String → Bool
  | none => false
  | some s => s ≠ ""

/-! ## Canonical fact model (`canonical/models.py`) -/

/-- `(x, y)` in document space (`Point`). -/
structure Point where
  x : Rat
  y : Rat
deriving DecidableEq

/-- Bounding box for a region in a document (`BBox`). -/
structure BBox where
  x1 : Rat
  y1 : Rat
  x2 : Rat
  y2 : Rat
deriving DecidableEq

/-- Single measurable or named entity (`Unit`). -/
structure Unit where
  id : String
  label : Option String
  value : PyVal
  unit_of_measure : Option String
  context : Option String
  origin : Point
  doc_id : String
  page : Nat
  bbox : Option BBox
deriving DecidableEq

/-- Python dict lookup on an insertion-ordered association list (keys of a
dict are unique, so the first match is the entry). -/
def dictGet (d : List (String × String)) (k : String) : Option String :=
  (d.find? (fun p => p.1 == k)).map (fun p => p.2)

/-- Python dict insert-or-overwrite: overwriting keeps the original position,
a new key is appended. -/
def dictSet (d : List (String × String)) (k v : String) : List (String × String) :=
  if d.any (fun p => p.1 == k) then d.map (fun p => if p.1 == k then (k, v) else p)
  else d ++ [(k, v)]

/-- The dict comprehension `{v: k for k, v in m.items()}` (on duplicate
values, the later key wins). -/
def invDict (m : List (String × String)) : List (String × String) :=
  m.foldl (fun d p => dictSet d p.2 p.1) []

/-- Strict 1:1 mapping between two sets (`Bijection`); `mapping` is the
insertion-ordered entry list of the Python dict. -/
structure Bijection where
  id : String
  left_set : List String
  right_set : List String
  mapping : List (String × String)
  origin : Point
  doc_id : String
  page : Nat
  bbox : Option BBox
deriving DecidableEq

/-- `Bijection.get_right`: right side for a left key; `none` if absent. -/
def Bijection.get_right (b : Bijection) (left : String) : Option String :=
  dictGet b.mapping left

/-- `Bijection.get_left`: inverts `mapping` on each call, then looks up. -/
def Bijection.get_left (b : Bijection) (right : String) : Option String :=
  dictGet (invDict b.mapping) right

/-- Single cell in a grid (`GridCell`). -/
structure GridCell where
  row : Nat
  col : Nat
  value : PyVal
  origin : Option Point
deriving DecidableEq

/-- Tabular or schematic region (`Grid`). -/
structure Grid where
  id : String
  rows : Nat
  cols : Nat
  cells : List GridCell
  origin : Point
  doc_id : String
  page : Nat
  bbox : Option BBox
deriving DecidableEq

/-- `Grid.get_cell`: linear scan for the first cell at `(row, col)`. -/
def Grid.get_cell (g : Grid) (row col : Nat) : Option GridCell :=
  g.cells.find? (fun c => c.row == row && c.col == col)

/-! ## Verification result types (`verify/models.py`) -/

/-- Normalized bounding box attached to a proof point (`ProofPointBBox`). -/
structure ProofPointBBox where
  x1 : Rat
  y1 : Rat
  x2 : Rat
  y2 : Rat
deriving DecidableEq

/-- Single coordinate proof (`ProofPoint`). -/
structure ProofPoint where
  x : Rat
  y : Rat
  page : Nat
  bbox : Option ProofPointBBox
  source_id : Option String
  source_type : Option String
deriving DecidableEq

/-- Answer provable from canonical facts (`AnswerWithProof`); its `status`
field is the constant `"answer"`. -/
structure AnswerWithProof where
  answer : String
  proof : List ProofPoint
  source_id : Option String
  source_type : Option String
deriving DecidableEq

/-- Deterministic refusal (`Refuse`); its `status` field is the constant
`"refuse"`. -/
structure Refuse where
  reason : String
deriving DecidableEq

/-- The return type of `verify_and_answer`: `AnswerWithProof | Refuse`. -/
inductive VerifyResult where
  | answer (a : AnswerWithProof)
  | refuse (r : Refuse)
deriving DecidableEq

/-- The `status` field of a result. -/
def VerifyResult.status : VerifyResult → String
  | .answer _ => "answer"
  | .refuse _ => "refuse"

/-- The `answer` of an answer, or the `reason` of a refusal. -/
def VerifyResult.payload : VerifyResult → String
  | .answer a => a.answer
  | .refuse r => r.reason

/-- The proof list of a result (a refusal carries none). -/
def VerifyResult.proofList : VerifyResult → List ProofPoint
  | .answer a => a.proof
  | .refuse _ => []

/-- The `source_id` of an answer (a refusal carries none). -/
def VerifyResult.sourceId : VerifyResult → Option String
  | .answer a => a.source_id
  | .refuse _ => none

/-! ## Regex primitives used by `verify/proof.py` -/

/-- Match a literal at the start of `cs` (case-sensitive). -/
def dropLit (lit : List Char) (cs : List Char) : Option (List Char) :=
  if lit.isPrefixOf cs then some (cs.drop lit.length) else none

/-- A regex `\w` word character, over the alphabet this program manipulates. -/
def isWordChar (c : Char) : Bool :=
  c.isAlpha || c.isDigit || c == '_' || c == 'µ' || c == 'μ' || c == 'Μ' || c == 'Ω'

/-- Does the character list start with a word character?  (`\b` after a word
character succeeds exactly when this is false.) -/
def headIsWordChar : List Char → Bool
  | [] => false
  | c :: _ => isWordChar c

/-- Try `pin\s+(?:number\s+)?(\d+)` anchored at the start of `cs`; return the
captured digit group.  (When the optional `number\s+` group matches, the rest
starts right after it; when it cannot match, the digits must follow the first
whitespace run — no other backtracking can succeed, because `number` never
starts with a digit.) -/
def matchPinAt (cs : List Char) : Option String :=
  match dropLit "pin".data cs with
  | none => none
  | some r1 =>
    let ws := r1.takeWhile Char.isWhitespace
    if ws.isEmpty then none
    else
      let r2 := r1.drop ws.length
      let r4 := match dropLit "number".data r2 with
        | some r3 =>
          let ws2 := r3.takeWhile Char.isWhitespace
          if ws2.isEmpty then r2 else r3.drop ws2.length
        | none => r2
      let ds := r4.takeWhile Char.isDigit
      if ds.isEmpty then none else some (String.mk ds)

/-- `re.search`: try `f` at every start position, leftmost match wins. -/
def searchFirst (f : List Char → Option α) : List Char → Option α
  | [] => f []
  | c :: cs =>
    match f (c :: cs) with
    | some a => some a
    | none => searchFirst f cs

/-- One match of a `(\d+(?:\.\d+)?)\s*(ALT1|ALT2|…)\b` pattern. -/
structure NumUnitMatch where
  val : Rat
  group0 : List Char
  altRaw : List Char
  consumed : Nat
deriving DecidableEq

/-- Try `(\d+(?:\.\d+)?)\s*(ALT1|ALT2|…)\b` (with `re.IGNORECASE`) anchored at
the start of `cs`: greedy digits, optional fraction, greedy whitespace, then
the first alternative (in pattern order) that matches and is followed by a
word boundary.  No other backtracking can succeed: every alternative starts
with a letter, which never re-matches a digit, a dot or whitespace. -/
def matchNumUnitAt (alts : List (List Char)) (cs : List Char) : Option NumUnitMatch :=
  let ds := cs.takeWhile Char.isDigit
  if ds.isEmpty then none
  else
    let r1 := cs.drop ds.length
    let frac : List Char :=
      match r1 with
      | '.' :: t =>
        let fd := t.takeWhile Char.isDigit
        if fd.isEmpty then [] else '.' :: fd
      | _ => []
    let r2 := r1.drop frac.length
    let ws := r2.takeWhile Char.isWhitespace
    let r3 := r2.drop ws.length
    let alt? := alts.findSome? (fun alt =>
      if (r3.take alt.length).map foldChar == alt.map foldChar
          && alt.length ≤ r3.length && !headIsWordChar (r3.drop alt.length) then
        some alt.length
      else none)
    match alt? with
    | none => none
    | some n =>
      let value :=
        match frac with
        | _ :: fd =>
          mkRat ((digitsVal ds * 10 ^ fd.length + digitsVal fd : Nat) : Int) (10 ^ fd.length)
        | [] => mkRat (digitsVal ds : Int) 1
      some { val := value
             group0 := ds ++ frac ++ ws ++ r3.take n
             altRaw := r3.take n
             consumed := ds.length + frac.length + ws.length + n }

/-- Helper for `finditer`, fuelled so that the kernel can evaluate it; the
fuel never runs out because every step consumes at least one character. -/
def finditerAux (alts : List (List Char)) : Nat → List Char → List NumUnitMatch
  | 0, _ => []
  | _ + 1, [] => []
  | fuel + 1, c :: cs =>
    match matchNumUnitAt alts (c :: cs) with
    | some m => m :: finditerAux alts fuel ((c :: cs).drop m.consumed)
    | none => finditerAux alts fuel cs

/-- `re.finditer`: all non-overlapping matches, scanning left to right. -/
def finditer (alts : List (List Char)) (cs : List Char) : List NumUnitMatch :=
  finditerAux alts cs.length cs

/-- Alternatives of `_VOLTAGE_PATTERN`, in pattern order. -/
def voltageAlts : List (List Char) := ["V".data, "VOLT".data, "VOLTS".data]

/-- Alternatives of `_CURRENT_PATTERN`, in pattern order. -/
def currentAlts : List (List Char) := ["µA".data, "mA".data, "A".data]

/-- Alternatives of `_CAPACITY_PATTERN`, in pattern order. -/
def capacityAlts : List (List Char) := ["mAh".data, "Ah".data, "Wh".data]

/-! ## Matchers (`verify/proof.py`) -/

/-- `_parse_voltage_from_text`: every match yields `(value, "V")`. -/
def _parse_voltage_from_text (text : String) : List (Rat × String) :=
  (finditer voltageAlts text.data).map (fun m => (m.val, "V"))

/-- `_parse_current_from_text`: the unit is classified from the last
whitespace-separated token of the full match (`m.group(0).split()[-1]`). -/
def _parse_current_from_text (text : String) : List (Rat × String) :=
  (finditer currentAlts text.data).filterMap (fun m =>
    match (splitWs m.group0).getLast? with
    | none => none
    | some tok =>
      let unit :=
        if tok.contains 'µ' || (tok.map pyLowerChar).contains 'u' then "µA"
        else if (tok.map pyLowerChar).contains 'm' then "mA"
        else "A"
      some (m.val, unit))

/-- `_parse_capacity_from_text`: the unit string is the last
whitespace-separated token of the full match, kept as written. -/
def _parse_capacity_from_text (text : String) : List (Rat × String) :=
  (finditer capacityAlts text.data).filterMap (fun m =>
    match (splitWs m.group0).getLast? with
    | none => none
    | some tok => some (m.val, String.mk tok))

/-- `_get_unit_text`: join the non-empty pieces of value, label, context. -/
def _get_unit_text (u : Unit) : String :=
  String.intercalate " "
    (([pyStr u.value, u.label.getD "", u.context.getD ""]).filter (fun p => p ≠ ""))

/-- Rebuild a `ProofPointBBox` from a fact's optional `BBox`. -/
def toProofBBox : Option BBox → Option ProofPointBBox
  | none => none
  | some b => some { x1 := b.x1, y1 := b.y1, x2 := b.x2, y2 := b.y2 }

/-- `_proof_point`. -/
def _proof_point (x y : Rat) (page : Nat) (bbox : Option ProofPointBBox)
    (source_id source_type : Option String) : ProofPoint :=
  { x := x, y := y, page := page, bbox := bbox, source_id := source_id,
    source_type := source_type }

/-- The `AnswerWithProof` every unit-based matcher constructs. -/
def mkUnitAnswer (ans : String) (u : Unit) : AnswerWithProof :=
  { answer := ans
    proof := [_proof_point u.origin.x u.origin.y u.page (toProofBBox u.bbox)
      (some u.id) (some "unit")]
    source_id := some u.id
    source_type := some "unit" }

/-- The `AnswerWithProof` the bijection branch of `_try_pin_lookup`
constructs. -/
def mkBijAnswer (ans : String) (b : Bijection) : AnswerWithProof :=
  { answer := ans
    proof := [_proof_point b.origin.x b.origin.y b.page (toProofBBox b.bbox)
      (some b.id) (some "bijection")]
    source_id := some b.id
    source_type := some "bijection" }

/-- The `AnswerWithProof` the grid branch of `_try_pin_lookup` constructs;
`pt` is the matched cell's origin, falling back to the grid origin. -/
def mkGridAnswer (ans : String) (pt : Point) (g : Grid) : AnswerWithProof :=
  { answer := ans
    proof := [_proof_point pt.x pt.y g.page (toProofBBox g.bbox)
      (some g.id) (some "grid")]
    source_id := some g.id
    source_type := some "grid" }

/-- The bijection step of `_try_pin_lookup`: try `n` as a left key, then as a
right value. -/
def bijPinAnswer (n : String) (b : Bijection) : Option AnswerWithProof :=
  match b.get_right n with
  | some right => some (mkBijAnswer right b)
  | none =>
    match b.get_left n with
    | some left => some (mkBijAnswer left b)
    | none => none

/-- Row-major traversal order of the nested `for row … for col` loops. -/
def rowMajor (g : Grid) : List (Nat × Nat) :=
  (List.range g.rows).flatMap (fun r => (List.range g.cols).map (fun c => (r, c)))

/-- First cell in row-major scan order whose stringified value equals `n`. -/
def gridScan (g : Grid) (n : String) : Option (Nat × Nat × GridCell) :=
  (rowMajor g).findSome? (fun rc =>
    match g.get_cell rc.1 rc.2 with
    | some cell => if pyStr cell.value = n then some (rc.1, rc.2, cell) else none
    | none => none)

/-- The adjacent "pin name" cell: same row, preferring `col+1` (when in
range), else `col-1` (when `col > 0`). -/
def adjCell (g : Grid) (row col : Nat) : Option GridCell :=
  let name_cell := if col + 1 < g.cols then g.get_cell row (col + 1) else none
  match name_cell with
  | some c => some c
  | none => if 0 < col then g.get_cell row (col - 1) else none

/-- The matched cell's proof coordinates: its own origin when present, else
the grid origin. -/
def cellPoint (g : Grid) (cell : GridCell) : Point :=
  match cell.origin with
  | some p => p
  | none => g.origin

/-- The grid step of `_try_pin_lookup` for one grid. -/
def gridPinAnswer (n : String) (g : Grid) : Option AnswerWithProof :=
  match gridScan g n with
  | none => none
  | some (row, col, cell) =>
    let answer_val :=
      match adjCell g row col with
      | some nc => pyStr nc.value
      | none => pyStr cell.value
    some (mkGridAnswer answer_val (cellPoint g cell) g)

/-- `_try_pin_lookup`. -/
def _try_pin_lookup (question : String) (bijections : List Bijection)
    (grids : List Grid) : Option AnswerWithProof :=
  let question_lower := pyStrip (pyLower question)
  match searchFirst matchPinAt question_lower.data with
  | none => none
  | some n =>
    match bijections.findSome? (bijPinAnswer n) with
    | some a => some a
    | none => grids.findSome? (gridPinAnswer n)

/-- Python `max(iterable, key=…)`: a left fold that replaces the current best
only on strict key increase, so the first of equal-key candidates wins. -/
def pyMaxBy (lt : α → α → Bool) (a : α) (l : List α) : α :=
  l.foldl (fun cur x => if lt cur x then x else cur) a

/-- The structured voltage unit symbols, uppercased. -/
def voltageUoms : List String := ["V", "VOLT", "VOLTS"]

/-- The structured `(value, unit)` candidates of `_try_voltage_max`: units
with a truthy voltage `unit_of_measure` whose value parses as a number. -/
def voltStructured (units : List Unit) : List (Rat × Unit) :=
  (units.filter (fun u =>
    optStrTruthy u.unit_of_measure
      && voltageUoms.contains (pyUpper (u.unit_of_measure.getD "")))).filterMap
    (fun u => (pyFloat u.value).map (fun v => (v, u)))

/-- The `numeric` list of `_try_voltage_max`: structured candidates, falling
back to regex-parsed candidates only when there are no structured ones. -/
def voltNumeric (units : List Unit) : List (Rat × Unit) :=
  if (voltStructured units).isEmpty then
    units.flatMap (fun u =>
      (_parse_voltage_from_text (_get_unit_text u)).map (fun p => (p.1, u)))
  else voltStructured units

/-- The answer string of `_try_voltage_max` for the selected candidate. -/
def voltAnswerStr (best : Rat × Unit) : String :=
  let answer_str :=
    if optStrTruthy best.2.unit_of_measure then
      pyStrip (pyStr best.2.value ++ " " ++ best.2.unit_of_measure.getD "")
    else floatRepr best.1 ++ " V"
  if !strEndsWith (pyStrip answer_str) "V" then floatRepr best.1 ++ " V"
  else answer_str

/-- `_try_voltage_max`. -/
def _try_voltage_max (question : String) (units : List Unit) :
    Option AnswerWithProof :=
  let ql := pyLower question
  if !(strContains ql "max" || strContains ql "maximum") then none
  else if !(strContains ql "voltage" || strContains ql "v " || strContains ql " v") then none
  else
    match voltNumeric units with
    | [] => none
    | c :: cs =>
      let best := pyMaxBy (fun a b : Rat × Unit => decide (a.1 < b.1)) c cs
      some (mkUnitAnswer (voltAnswerStr best) best.2)

/-- The structured current unit symbols as written in the source tuple
`("A", "MA", "µA")` — note `µA` is compared against an uppercased string, in
which `µ` has become `Μ`, so that member never matches. -/
def currentUoms : List String := ["A", "MA", "µA"]

/-- One unit's contribution to the current-matcher candidate list: the
structured candidate (current `unit_of_measure` and parseable `value`),
followed by the regex-parsed candidates from the unit's text. -/
def currentCandsOf (u : Unit) : List (Rat × Unit × String) :=
  (if optStrTruthy u.unit_of_measure
      && currentUoms.contains (pyUpper (u.unit_of_measure.getD "")) then
     match pyFloat u.value with
     | some v => [(v, u, u.unit_of_measure.getD "A")]
     | none => []
   else []) ++
  (_parse_current_from_text (_get_unit_text u)).map (fun p => (p.1, u, p.2))

/-- `_try_max_current`. -/
def _try_max_current (question : String) (units : List Unit) :
    Option AnswerWithProof :=
  let ql := pyLower question
  if !(strContains ql "max" || strContains ql "maximum") then none
  else if !(strContains ql "current" || strContains ql " a " || strContains ql " amper") then
    none
  else
    match units.flatMap currentCandsOf with
    | [] => none
    | c :: cs =>
      let best := pyMaxBy (fun a b : Rat × Unit × String => decide (a.1 < b.1)) c cs
      some (mkUnitAnswer (pyStrip (floatRepr best.1 ++ " " ++ best.2.2)) best.2.1)

/-- The structured capacity unit symbols, uppercased. -/
def capacityUoms : List String := ["MAH", "AH", "WH"]

/-- One unit's contribution to the capacity-matcher candidate list: the
regex-parsed candidates first, then the structured candidate (this is the
order of the source loop). -/
def capacityCandsOf (u : Unit) : List (Rat × Unit × String) :=
  (_parse_capacity_from_text (_get_unit_text u)).map (fun p => (p.1, u, p.2)) ++
  (if optStrTruthy u.unit_of_measure
      && capacityUoms.contains (pyUpper (u.unit_of_measure.getD "")) then
     match pyFloat u.value with
     | some v => [(v, u, u.unit_of_measure.getD "mAh")]
     | none => []
   else [])

/-- `_try_max_capacity`. -/
def _try_max_capacity (question : String) (units : List Unit) :
    Option AnswerWithProof :=
  let ql := pyLower question
  if !(strContains ql "max" || strContains ql "maximum" || strContains ql "nominal") then none
  else if !(strContains ql "capacity" || strContains ql "mah"
      || strContains ql " ah " || strContains ql " wh ") then none
  else
    match units.flatMap capacityCandsOf with
    | [] => none
    | c :: cs =>
      let best := pyMaxBy (fun a b : Rat × Unit × String => decide (a.1 < b.1)) c cs
      some (mkUnitAnswer (pyStrip (floatRepr best.1 ++ " " ++ best.2.2)) best.2.1)

/-- Candidate of the intent matcher: `(score, answer_str, unit, match_type)`.
Scores are the keyword overlap plus an integer bonus, hence naturals. -/
structure IntentCand where
  score : Nat
  answer : String
  unit : Unit
  matchType : String
deriving DecidableEq

/-- The words discarded from the question by `_try_unit_by_intent`. -/
def stopWords : List String := ["what", "is", "the", "of", "this", "document"]

/-- A character of the class `[a-z0-9.]` in `re.findall(r"[a-z0-9.]+", …)`. -/
def isWordRunChar (c : Char) : Bool := ('a' ≤ c && c ≤ 'z') || c.isDigit || c == '.'

/-- `set(re.findall(r"[a-z0-9.]+", question_lower))` minus the stop words.
The set is only ever used for a count, so a duplicate-free list models it. -/
def questionWords (ql : String) : List String :=
  (((runsOf isWordRunChar ql.data).map String.mk).eraseDups).filter
    (fun w => !stopWords.contains w)

/-- The keyword-overlap score: distinct question words of length `> 1`
occurring in the unit's lowercased text. -/
def overlapScore (ql textLower : String) : Nat :=
  ((questionWords ql).filter (fun w => w.length > 1 && strContains textLower w)).length

/-- One quantity block of the intent matcher, for one unit: the structured
candidate (uom in `uoms` and parseable value, bonus 10) followed by the
candidates parsed from the unit's text (bonus 5).  The parsed answer string
is `f"{val} {uom}"`; the voltage parse list always carries `"V"` as its
unit, so this covers the source's `f"{val} V"` as well. -/
def intentBlock (overlap : Nat) (uoms : List String) (parsed : List (Rat × String))
    (u : Unit) : List IntentCand :=
  (if optStrTruthy u.unit_of_measure
      && uoms.contains (pyUpper (u.unit_of_measure.getD "")) then
     match pyFloat u.value with
     | some _ =>
       [⟨overlap + 10, pyStrip (pyStr u.value ++ " " ++ u.unit_of_measure.getD ""),
         u, "structured"⟩]
     | none => []
   else []) ++
  parsed.map (fun p => (⟨overlap + 5, floatRepr p.1 ++ " " ++ p.2, u, "parsed"⟩ : IntentCand))

/-- One unit's contribution to the intent-matcher candidate list, in source
order: voltage (structured, then parsed), current, capacity. -/
def intentCandsOf (ql : String) (wantsV wantsC wantsCap : Bool) (u : Unit) :
    List IntentCand :=
  let text := _get_unit_text u
  let overlap := overlapScore ql (pyLower text)
  (if wantsV then intentBlock overlap voltageUoms (_parse_voltage_from_text text) u else []) ++
  (if wantsC then intentBlock overlap currentUoms (_parse_current_from_text text) u else []) ++
  (if wantsCap then intentBlock overlap capacityUoms (_parse_capacity_from_text text) u else [])

/-- Lexicographic strict order on `(score, y, x)` keys — Python's tuple
comparison. -/
def lex3Lt (p q : Nat × Rat × Rat) : Prop :=
  p.1 < q.1 ∨ (p.1 = q.1 ∧ (p.2.1 < q.2.1 ∨ (p.2.1 = q.2.1 ∧ p.2.2 < q.2.2)))

instance (p q : Nat × Rat × Rat) : Decidable (lex3Lt p q) := by
  unfold lex3Lt; infer_instance

/-- The sort key `(score, unit.origin.y, unit.origin.x)` of the `max` call in
`_try_unit_by_intent`. -/
def intentKey (c : IntentCand) : Nat × Rat × Rat :=
  (c.score, c.unit.origin.y, c.unit.origin.x)

/-- Python tuple comparison on `intentKey`, as used by `max` in
`_try_unit_by_intent`. -/
def intentKeyLt (a b : IntentCand) : Bool :=
  decide (lex3Lt (intentKey a) (intentKey b))

/-- The voltage cues of `_try_unit_by_intent`. -/
def voltageCues : List String :=
  ["voltage", "volt", " v ", "charge voltage", "cutoff voltage",
   "cut-off voltage", "max voltage"]

/-- The current cues of `_try_unit_by_intent`. -/
def currentCues : List String :=
  ["current", " amper", " a ", "discharge current", "charge current"]

/-- The capacity cues of `_try_unit_by_intent`. -/
def capacityCues : List String :=
  ["capacity", "mah", " ah ", " wh ", "nominal capacity"]

/-- The full candidate list of `_try_unit_by_intent` for a question. -/
def intentCandidates (question : String) (units : List Unit) : List IntentCand :=
  let ql := pyStrip (pyLower question)
  units.flatMap (intentCandsOf ql
    (voltageCues.any (fun w => strContains ql w))
    (currentCues.any (fun w => strContains ql w))
    (capacityCues.any (fun w => strContains ql w)))

/-- `_try_unit_by_intent`. -/
def _try_unit_by_intent (question : String) (units : List Unit) :
    Option AnswerWithProof :=
  match intentCandidates question units with
  | [] => none
  | c :: cs =>
    let best := pyMaxBy intentKeyLt c cs
    some (mkUnitAnswer best.answer best.unit)

/-- One unit's test in `_try_unit_lookup`: label mention first, then
stringified-value mention. -/
def unitLookupAnswer (ql : String) (u : Unit) : Option AnswerWithProof :=
  if optStrTruthy u.label && strContains ql (pyLower (u.label.getD "")) then
    some (mkUnitAnswer (pyStrip (pyStr u.value ++ " " ++ u.unit_of_measure.getD "")) u)
  else if strContains ql (pyLower (pyStr u.value)) then
    some (mkUnitAnswer (pyStrip (pyStr u.value ++ " " ++ u.unit_of_measure.getD "")) u)
  else none

/-- `_try_unit_lookup`. -/
def _try_unit_lookup (question : String) (units : List Unit) :
    Option AnswerWithProof :=
  let ql := pyLower question
  units.findSome? (unitLookupAnswer ql)

/-- The fixed refusal reason of `verify_and_answer`. -/
def refuseReason : String := "No canonical fact derives this answer."

/-- `verify_and_answer` (`verify/proof.py`): the ordered matcher chain;
refuse when no rule fires. -/
def verify_and_answer (question : String) (units : List Unit)
    (bijections : List Bijection) (grids : List Grid) : VerifyResult :=
  match _try_pin_lookup question bijections grids with
  | some a => .answer a
  | none =>
  match _try_voltage_max question units with
  | some a => .answer a
  | none =>
  match _try_max_current question units with
  | some a => .answer a
  | none =>
  match _try_max_capacity question units with
  | some a => .answer a
  | none =>
  match _try_unit_by_intent question units with
  | some a => .answer a
  | none =>
  match _try_unit_lookup question units with
  | some a => .answer a
  | none => .refuse { reason := refuseReason }

/-! ## Extraction normalizer (`ingest/gemini_extract.py`), units part -/

/-- A scalar JSON value as the normalizer sees it (string or number);
`Option JVal` models a possibly-absent or null field. -/
inductive JVal where
  | js (s : String)
  | jn (q : Rat)
deriving DecidableEq

/-- Python truthiness of a scalar value. -/
def JVal.truthy : JVal → Bool
  | .js s => s ≠ ""
  | .jn q => q ≠ 0

/-- Python `x or y` on possibly-absent scalars (`None` is falsy; the right
operand is returned as-is when the left is falsy). -/
def pyOr (x y : Option JVal) : Option JVal :=
  match x with
  | some v => if v.truthy then some v else y
  | none => y

/-- Python `float()` coercion of a scalar (strings parse, numbers pass). -/
def jFloat : JVal → Option Rat
  | .js s => parseFloat s
  | .jn q => some q

/-- The shape of a raw `origin` field: a map with possibly-absent `x`/`y`
entries, an ordered list, or anything else (including absent). -/
inductive JOrigin where
  | odict (x y : Option JVal)
  | olist (elems : List JVal)
  | other
deriving DecidableEq

/-- `_normalize_origin`: a dict needs present numeric `x` and `y` (a string
fails the `isinstance` check); a list of length ≥ 2 has its first two
elements coerced with `float()`; everything else is rejected. -/
def normalizeOrigin : JOrigin → Option Point
  | .odict (some (.jn x)) (some (.jn y)) => some { x := x, y := y }
  | .odict _ _ => none
  | .olist (a :: b :: _) =>
    (match jFloat a, jFloat b with
     | some x, some y => some { x := x, y := y }
     | _, _ => none)
  | .olist _ => none
  | .other => none

/-- The shape of a raw `bbox` field. -/
inductive JBBox where
  | bdict (x1 y1 x2 y2 : Option JVal)
  | blist (elems : List JVal)
  | other
deriving DecidableEq

/-- `_normalize_bbox`: all four coordinates present and numeric (dict), or a
list of length ≥ 4 whose first four elements coerce with `float()`. -/
def normalizeBBox : JBBox → Option BBox
  | .bdict (some (.jn x1)) (some (.jn y1)) (some (.jn x2)) (some (.jn y2)) =>
    some { x1 := x1, y1 := y1, x2 := x2, y2 := y2 }
  | .bdict _ _ _ _ => none
  | .blist (a :: b :: c :: d :: _) =>
    (match jFloat a, jFloat b, jFloat c, jFloat d with
     | some x1, some y1, some x2, some y2 =>
       some { x1 := x1, y1 := y1, x2 := x2, y2 := y2 }
     | _, _, _, _ => none)
  | .blist _ => none
  | .other => none

/-- The fields of a raw unit entry that the units loop of
`_normalize_extraction` reads. -/
structure RawUnitFields where
  id : Option JVal
  label : Option JVal
  value : Option JVal
  text : Option JVal
  content : Option JVal
  unit_of_measure : Option JVal
  origin : JOrigin
  bbox : JBBox
deriving DecidableEq

/-- A raw entry of the `units` array: a map, or some non-map value
(skipped by the `isinstance(u, dict)` check). -/
inductive RawEntry where
  | udict (f : RawUnitFields)
  | nondict
deriving DecidableEq

/-- A normalized unit record, as appended to `kept` by the units loop. -/
structure NormUnit where
  id : String
  label : Option String
  value : JVal
  unit_of_measure : Option String
  origin : Point
  bbox : Option BBox
deriving DecidableEq

/-- The synthesized unit id `f"{page_prefix}u{i}"`, i.e. `p{page}_u{i}`. -/
def synthUnitId (page i : Nat) : String := "p" ++ natStr page ++ "_u" ++ natStr i

/-- Python `isinstance(v, str)` projection of a possibly-absent scalar. -/
def asStr : Option JVal → Option String
  | some (.js s) => some s
  | _ => none

/-- One iteration of the units loop of `_normalize_extraction`; `i` is the
entry's position in the raw list (from `enumerate`). -/
def normalizeUnitEntry (page i : Nat) : RawEntry → Option NormUnit
  | .nondict => none
  | .udict f =>
    match normalizeOrigin f.origin with
    | none => none
    | some origin =>
      let val0 := match f.value with
        | some v => some v
        | none => pyOr (pyOr f.text f.label) f.content
      let val := match val0 with
        | some v => v
        | none => .js ""
      let uid := match asStr f.id with
        | some s => if pyStrip s ≠ "" then s else synthUnitId page i
        | none => synthUnitId page i
      some { id := uid
             label := asStr f.label
             value := val
             unit_of_measure := asStr f.unit_of_measure
             origin := origin
             bbox := normalizeBBox f.bbox }

/-- The units loop of `_normalize_extraction`, carrying the enumerate
index. -/
def normalizeUnitsAux (page : Nat) : Nat → List RawEntry → List NormUnit
  | _, [] => []
  | i, e :: es =>
    match normalizeUnitEntry page i e with
    | some u => u :: normalizeUnitsAux page (i + 1) es
    | none => normalizeUnitsAux page (i + 1) es

/-- The units part of `_normalize_extraction` for one page. -/
def normalizeUnits (page : Nat) (entries : List RawEntry) : List NormUnit :=
  normalizeUnitsAux page 0 entries

/-! ## Ingestion orchestrator (`ingest/pipeline.py`) -/

/-- The per-page loop of `ingest_document`: `extract` models the fallible
collaborator call `gemini_extract_page` (an `error` is a raised exception),
`canon` models `canonicalize_page` (total: it swallows every per-candidate
failure).  A page whose extraction raises increments the failed counter and
the loop continues; the inter-page sleeps, rate-limit cooldown, logging and
progress events do not affect the returned value and are not modelled. -/
def ingestPages (extract : Nat → π → Except ε σ) (canon : σ → Nat → List φ)
    (pages : List (Nat × π)) : List φ × Nat :=
  pages.foldl
    (fun acc p =>
      match extract p.1 p.2 with
      | .ok e => (acc.1 ++ canon e p.1, acc.2)
      | .error _ => (acc.1, acc.2 + 1))
    ([], 0)

/-- `ingest_document`, after rendering: the accumulated canonical facts, the
total page count, and the failed page count. -/
def ingest_document (extract : Nat → π → Except ε σ) (canon : σ → Nat → List φ)
    (pages : List (Nat × π)) : List φ × Nat × Nat :=
  let r := ingestPages extract canon pages
  (r.1, pages.length, r.2)

/-! ## Shared lemmas about the list combinators in the embedding -/

theorem findSome?_first {f : α → Option β} {b : β} :
    ∀ {l : List α}, l.findSome? f = some b →
      ∃ i a, l.get? i = some a ∧ f a = some b ∧
        ∀ j, j < i → ∀ x, l.get? j = some x → f x = none := by
  intro l
  induction l with
  | nil => intro h; simp [List.findSome?] at h
  | cons hd tl ih =>
    intro h
    rw [List.findSome?_cons] at h
    cases hfh : f hd with
    | some v =>
      rw [hfh] at h
      exact ⟨0, hd, rfl, by rw [hfh]; exact h, fun j hj => absurd hj (Nat.not_lt_zero j)⟩
    | none =>
      rw [hfh] at h
      obtain ⟨i, a, hget, hfa, hearlier⟩ := ih h
      refine ⟨i + 1, a, hget, hfa, ?_⟩
      intro j hj x hx
      cases j with
      | zero =>
        simp only [List.get?] at hx
        injection hx with hx
        rw [← hx]; exact hfh
      | succ j => exact hearlier j (by omega) x hx

theorem findSome?_mem {f : α → Option β} {b : β} {l : List α}
    (h : l.findSome? f = some b) : ∃ a ∈ l, f a = some b := by
  obtain ⟨i, a, hget, hfa, _⟩ := findSome?_first h
  exact ⟨a, List.get?_mem hget, hfa⟩

theorem pyMaxBy_cons (lt : α → α → Bool) (a x : α) (l : List α) :
    pyMaxBy lt a (x :: l) = pyMaxBy lt (if lt a x then x else a) l := rfl

theorem pyMaxBy_mem (lt : α → α → Bool) :
    ∀ (l : List α) (a : α), pyMaxBy lt a l ∈ a :: l := by
  intro l
  induction l with
  | nil => intro a; simp [pyMaxBy]
  | cons x t ih =>
    intro a
    rw [pyMaxBy_cons]
    by_cases hx : lt a x = true
    · rw [if_pos hx]
      exact List.mem_cons_of_mem a (ih x)
    · rw [if_neg hx]
      rcases List.mem_cons.mp (ih a) with h | h
      · rw [h]; exact List.mem_cons_self _ _
      · exact List.mem_cons_of_mem a (List.mem_cons_of_mem x h)

/-- Decompose `a :: l = l₁ ++ m :: l₂` by whether `l₁` is empty. -/
theorem cons_eq_append_cons {a m : α} {l l₁ l₂ : List α}
    (h : a :: l = l₁ ++ m :: l₂) :
    (l₁ = [] ∧ a = m ∧ l = l₂) ∨ ∃ t₁, l₁ = a :: t₁ ∧ l = t₁ ++ m :: l₂ := by
  cases l₁ with
  | nil =>
    simp only [List.nil_append] at h
    injection h with h1 h2
    exact .inl ⟨rfl, h1, h2⟩
  | cons z t₁ =>
    rw [List.cons_append] at h
    injection h with h1 h2
    exact .inr ⟨t₁, by rw [← h1], h2⟩

/-- Python `max(key=…)` splits the candidate list around its result: every
earlier candidate has a strictly smaller key (so the first of the maxima
wins) and no later candidate has a strictly larger key. -/
theorem pyMaxBy_sandwich (lt : α → α → Bool)
    (htrans : ∀ a b c, lt a b = true → lt b c = true → lt a c = true)
    (hD : ∀ a b c, lt a b = false → lt a c = true → lt b c = true) :
    ∀ (l : List α) (a : α), ∃ l₁ l₂,
      a :: l = l₁ ++ pyMaxBy lt a l :: l₂ ∧
      (∀ x ∈ l₁, lt x (pyMaxBy lt a l) = true) ∧
      (∀ x ∈ l₂, lt (pyMaxBy lt a l) x = false) := by
  intro l
  induction l with
  | nil =>
    intro a
    exact ⟨[], [], by simp [pyMaxBy], by simp, by simp⟩
  | cons x t ih =>
    intro a
    rw [pyMaxBy_cons]
    by_cases hax : lt a x = true
    · rw [if_pos hax]
      obtain ⟨l₁, l₂, heq, hfront, hback⟩ := ih x
      refine ⟨a :: l₁, l₂, by rw [List.cons_append, ← heq], ?_, hback⟩
      intro y hy
      rcases List.mem_cons.mp hy with rfl | hy
      · rcases cons_eq_append_cons heq with ⟨_, hm, _⟩ | ⟨t₁, hl₁, _⟩
        · exact hm ▸ hax
        · have hxm : lt x (pyMaxBy lt x t) = true := hfront x (hl₁ ▸ List.mem_cons_self x t₁)
          exact htrans _ _ _ hax hxm
      · exact hfront y hy
    · rw [if_neg hax]
      have hax' : lt a x = false := by simpa using hax
      obtain ⟨l₁, l₂, heq, hfront, hback⟩ := ih a
      rcases cons_eq_append_cons heq with ⟨hl₁, hm, hl₂⟩ | ⟨t₁, hl₁, ht⟩
      · refine ⟨[], x :: l₂, ?_, by simp, ?_⟩
        · simp only [List.nil_append]
          rw [← hm, ← hl₂]
        · intro y hy
          rcases List.mem_cons.mp hy with rfl | hy
          · rw [← hm]; exact hax'
          · exact hback y hy
      · have ham : lt a (pyMaxBy lt a t) = true := hfront a (hl₁ ▸ List.mem_cons_self a t₁)
        refine ⟨a :: x :: t₁, l₂, ?_, ?_, hback⟩
        · rw [List.cons_append, List.cons_append, ← ht]
        · intro y hy
          rcases List.mem_cons.mp hy with rfl | hy
          · exact ham
          · rcases List.mem_cons.mp hy with rfl | hy
            · exact hD _ _ _ hax' ham
            · exact hfront y (hl₁ ▸ List.mem_cons_of_mem a hy)

theorem fstLt_trans {β : Type _} (a b c : Rat × β)
    (h1 : decide (a.1 < b.1) = true) (h2 : decide (b.1 < c.1) = true) :
    decide (a.1 < c.1) = true := by
  simp only [decide_eq_true_eq] at *
  exact lt_trans h1 h2

theorem fstLt_D {β : Type _} (a b c : Rat × β)
    (h1 : decide (a.1 < b.1) = false) (h2 : decide (a.1 < c.1) = true) :
    decide (b.1 < c.1) = true := by
  simp only [decide_eq_false_iff_not, decide_eq_true_eq] at *
  exact lt_of_le_of_lt (le_of_not_lt h1) h2

theorem lex3Lt_trans {p q r : Nat × Rat × Rat} (h1 : lex3Lt p q) (h2 : lex3Lt q r) :
    lex3Lt p r := by
  unfold lex3Lt at *
  rcases h1 with h1 | ⟨e1, h1⟩
  · rcases h2 with h2 | ⟨e2, _⟩
    · exact .inl (lt_trans h1 h2)
    · exact .inl (lt_of_lt_of_le h1 (le_of_eq e2))
  · rcases h2 with h2 | ⟨e2, h2⟩
    · exact .inl (lt_of_le_of_lt (le_of_eq e1) h2)
    · refine .inr ⟨e1.trans e2, ?_⟩
      rcases h1 with h1 | ⟨f1, h1⟩
      · rcases h2 with h2 | ⟨f2, _⟩
        · exact .inl (lt_trans h1 h2)
        · exact .inl (lt_of_lt_of_le h1 (le_of_eq f2))
      · rcases h2 with h2 | ⟨f2, h2⟩
        · exact .inl (lt_of_le_of_lt (le_of_eq f1) h2)
        · exact .inr ⟨f1.trans f2, lt_trans h1 h2⟩

theorem lex3Lt_total {p q : Nat × Rat × Rat} (h : ¬ lex3Lt p q) :
    lex3Lt q p ∨ q = p := by
  unfold lex3Lt at *
  push_neg at h
  obtain ⟨h1, h2⟩ := h
  rcases lt_or_eq_of_le h1 with hq1 | hq1
  · exact .inl (.inl hq1)
  · obtain ⟨h3, h4⟩ := h2 hq1.symm
    rcases lt_or_eq_of_le h3 with hq2 | hq2
    · exact .inl (.inr ⟨hq1, .inl hq2⟩)
    · rcases lt_or_eq_of_le (h4 hq2.symm) with hq3 | hq3
      · exact .inl (.inr ⟨hq1, .inr ⟨hq2, hq3⟩⟩)
      · exact .inr (Prod.ext hq1 (Prod.ext hq2 hq3))

theorem intentKeyLt_trans (a b c : IntentCand)
    (h1 : intentKeyLt a b = true) (h2 : intentKeyLt b c = true) :
    intentKeyLt a c = true := by
  simp only [intentKeyLt, decide_eq_true_eq] at *
  exact lex3Lt_trans h1 h2

theorem intentKeyLt_D (a b c : IntentCand)
    (h1 : intentKeyLt a b = false) (h2 : intentKeyLt a c = true) :
    intentKeyLt b c = true := by
  simp only [intentKeyLt, decide_eq_false_iff_not, decide_eq_true_eq] at *
  rcases lex3Lt_total h1 with h | h
  · exact lex3Lt_trans h h2
  · rw [show intentKey b = intentKey a from h]
    exact h2

theorem ingestPages_eq (extract : Nat → π → Except ε σ) (canon : σ → Nat → List φ) :
    ∀ (pages : List (Nat × π)),
      ingestPages extract canon pages =
        (pages.flatMap (fun p => match extract p.1 p.2 with
          | .ok e => canon e p.1
          | .error _ => []),
         pages.countP (fun p => match extract p.1 p.2 with
          | .ok _ => false
          | .error _ => true)) := by
  have aux : ∀ (pages : List (Nat × π)) (acc : List φ × Nat),
      pages.foldl (fun acc p => match extract p.1 p.2 with
        | .ok e => (acc.1 ++ canon e p.1, acc.2)
        | .error _ => (acc.1, acc.2 + 1)) acc =
      (acc.1 ++ pages.flatMap (fun p => match extract p.1 p.2 with
        | .ok e => canon e p.1
        | .error _ => []),
       acc.2 + pages.countP (fun p => match extract p.1 p.2 with
        | .ok _ => false
        | .error _ => true)) := by
    intro pages
    induction pages with
    | nil => intro acc; simp
    | cons p ps ih =>
      intro acc
      rw [List.foldl_cons, List.flatMap_cons, List.countP_cons]
      cases hx : extract p.1 p.2 with
      | ok e => simp [hx, ih, List.append_assoc]
      | error err =>
        simp only [hx]
        rw [ih]
        simp only [List.nil_append, Prod.mk.injEq, if_true]
        exact ⟨trivial, by omega⟩
  intro pages
  unfold ingestPages
  rw [aux]
  simp

/-! ## Matchers on empty fact lists -/

theorem _try_pin_lookup_nil (q : String) : _try_pin_lookup q [] [] = none := by
  unfold _try_pin_lookup
  dsimp only
  split <;> rfl

theorem _try_voltage_max_nil (q : String) : _try_voltage_max q [] = none := by
  unfold _try_voltage_max
  dsimp only
  rw [show voltNumeric [] = [] from rfl]
  split <;> (try split) <;> rfl

theorem _try_max_current_nil (q : String) : _try_max_current q [] = none := by
  unfold _try_max_current
  dsimp only
  rw [show List.flatMap ([] : List Unit) currentCandsOf = [] from rfl]
  split <;> (try split) <;> rfl

theorem _try_max_capacity_nil (q : String) : _try_max_capacity q [] = none := by
  unfold _try_max_capacity
  dsimp only
  rw [show List.flatMap ([] : List Unit) capacityCandsOf = [] from rfl]
  split <;> (try split) <;> rfl

theorem _try_unit_by_intent_nil (q : String) : _try_unit_by_intent q [] = none := rfl

theorem _try_unit_lookup_nil (q : String) : _try_unit_lookup q [] = none := rfl

/-! ## Claims -/

/-- C1: for every `(question, units, bijections, grids)`, repeated
invocations of `verify_and_answer` yield identical results: the same
`status`, the same `answer`/`reason` payload, and the same proof list.  The
embedding is a pure function of exactly these four inputs — the Python
function reads no other state, uses no randomness, and every internal
iteration order (dict insertion order, list order, regex scanning) is fixed
by the inputs — so two invocations on equal inputs agree in every
component. -/
theorem claim_C1_determinism
    (q q' : String) (us us' : List Unit) (bs bs' : List Bijection) (gs gs' : List Grid)
    (hq : q = q') (hu : us = us') (hb : bs = bs') (hg : gs = gs') :
    verify_and_answer q us bs gs = verify_and_answer q' us' bs' gs' ∧
    (verify_and_answer q us bs gs).status = (verify_and_answer q' us' bs' gs').status ∧
    (verify_and_answer q us bs gs).payload = (verify_and_answer q' us' bs' gs').payload ∧
    (verify_and_answer q us bs gs).proofList =
      (verify_and_answer q' us' bs' gs').proofList := by
  subst hq; subst hu; subst hb; subst hg
  exact ⟨rfl, rfl, rfl, rfl⟩

theorem claim_C1_determinism_witness :
    verify_and_answer "What is pin 5?" [] [] [] = verify_and_answer "What is pin 5?" [] [] [] :=
  (claim_C1_determinism "What is pin 5?" "What is pin 5?" [] [] [] [] [] []
    rfl rfl rfl rfl).1

/-- C2: `verify_and_answer` is total (the embedding returns a value of the
two-variant result type on every input — no exception path exists), and
whenever no matcher succeeds it returns the fixed refusal; in particular on
three empty fact lists every matcher fails, for any question whatsoever, and
the fixed reason contains `"canonical"`. -/
theorem claim_C2_total_and_refusal :
    (∀ (q : String) (us : List Unit) (bs : List Bijection) (gs : List Grid),
      (∃ a, verify_and_answer q us bs gs = .answer a) ∨
        verify_and_answer q us bs gs = .refuse { reason := refuseReason }) ∧
    (∀ q : String, verify_and_answer q [] [] [] = .refuse { reason := refuseReason }) ∧
    strContains refuseReason "canonical" = true := by
  refine ⟨?_, ?_, by decide⟩
  · intro q us bs gs
    unfold verify_and_answer
    cases h1 : _try_pin_lookup q bs gs with
    | some a => exact .inl ⟨a, rfl⟩
    | none =>
    cases h2 : _try_voltage_max q us with
    | some a => exact .inl ⟨a, rfl⟩
    | none =>
    cases h3 : _try_max_current q us with
    | some a => exact .inl ⟨a, rfl⟩
    | none =>
    cases h4 : _try_max_capacity q us with
    | some a => exact .inl ⟨a, rfl⟩
    | none =>
    cases h5 : _try_unit_by_intent q us with
    | some a => exact .inl ⟨a, rfl⟩
    | none =>
    cases h6 : _try_unit_lookup q us with
    | some a => exact .inl ⟨a, rfl⟩
    | none => exact .inr rfl
  · intro q
    unfold verify_and_answer
    rw [_try_pin_lookup_nil, _try_voltage_max_nil, _try_max_current_nil,
      _try_max_capacity_nil, _try_unit_by_intent_nil, _try_unit_lookup_nil]

/-- C3: if extraction raises on exactly one page, `ingest_document` (total by
construction: a raised page is an `error` branch, not a propagated
exception) still returns the canonicalized facts of every other page, in
page order, with `pages_failed = 1`. -/
theorem claim_C3_partial_failure
    (extract : Nat → π → Except ε σ) (canon : σ → Nat → List φ)
    (pages : List (Nat × π))
    (h1 : pages.countP (fun p => match extract p.1 p.2 with
      | .ok _ => false
      | .error _ => true) = 1) :
    ingest_document extract canon pages =
      (pages.flatMap (fun p => match extract p.1 p.2 with
        | .ok e => canon e p.1
        | .error _ => []),
       pages.length, 1) := by
  unfold ingest_document
  rw [ingestPages_eq, h1]

/-- Witness extractor for C3: page 3 raises, all other pages succeed. -/
def exC3extract (i : Nat) (_ : PUnit) : Except String Nat :=
  if i = 3 then .error "429 resource exhausted" else .ok i

/-- Witness page list for C3: five rendered pages. -/
def exC3pages : List (Nat × PUnit) :=
  [(0, .unit), (1, .unit), (2, .unit), (3, .unit), (4, .unit)]

theorem claim_C3_partial_failure_witness :
    exC3pages.countP (fun p => match exC3extract p.1 p.2 with
      | .ok _ => false
      | .error _ => true) = 1 ∧
    ingest_document exC3extract (fun e _ => [e]) exC3pages =
      (exC3pages.flatMap (fun p => match exC3extract p.1 p.2 with
        | .ok e => [e]
        | .error _ => []), exC3pages.length, 1) ∧
    exC3pages.flatMap (fun p => match exC3extract p.1 p.2 with
      | .ok e => [e]
      | .error _ => []) = [0, 1, 2, 4] :=
  ⟨by decide, claim_C3_partial_failure exC3extract (fun e _ => [e]) exC3pages (by decide),
   by decide⟩

/-! ## Dict lemmas for the bijection round trip -/

theorem dictGet_cons (p : String × String) (t : List (String × String)) (k : String) :
    dictGet (p :: t) k = if p.1 == k then some p.2 else dictGet t k := by
  unfold dictGet
  rw [List.find?]
  cases h : p.1 == k <;> simp [h]

theorem dictGet_eq_of_mem :
    ∀ {m : List (String × String)} {k v : String},
      (m.map Prod.fst).Nodup → (k, v) ∈ m → dictGet m k = some v := by
  intro m
  induction m with
  | nil => intro k v _ hmem; simp at hmem
  | cons p t ih =>
    intro k v hk hmem
    rcases List.mem_cons.mp hmem with rfl | hmem
    · rw [dictGet_cons]
      simp
    · have hk2 : p.1 ∉ t.map Prod.fst ∧ (t.map Prod.fst).Nodup := by
        rw [List.map_cons, List.nodup_cons] at hk; exact hk
      have hne : p.1 ≠ k := fun he =>
        hk2.1 (by rw [he]; exact List.mem_map_of_mem Prod.fst hmem)
      rw [dictGet_cons, if_neg (by simpa using hne)]
      exact ih hk2.2 hmem

theorem foldl_dictSet_fresh :
    ∀ (l acc : List (String × String)),
      (∀ p ∈ l, ∀ q ∈ acc, q.1 ≠ p.2) →
      (l.map Prod.snd).Nodup →
      l.foldl (fun d p => dictSet d p.2 p.1) acc =
        acc ++ l.map (fun p => (p.2, p.1)) := by
  intro l
  induction l with
  | nil => intro acc _ _; simp
  | cons p t ih =>
    intro acc hdisj hnd
    rw [List.foldl_cons]
    have hany : acc.any (fun q => q.1 == p.2) = false := by
      rw [List.any_eq_false]
      intro q hq
      simpa using hdisj p (List.mem_cons_self p t) q hq
    have hset : dictSet acc p.2 p.1 = acc ++ [(p.2, p.1)] := by
      unfold dictSet
      rw [hany]
      simp
    rw [hset]
    have hnd2 : p.2 ∉ t.map Prod.snd ∧ (t.map Prod.snd).Nodup := by
      rw [List.map_cons, List.nodup_cons] at hnd; exact hnd
    rw [ih (acc ++ [(p.2, p.1)]) ?_ hnd2.2]
    · simp
    · intro r hr q hq
      rcases List.mem_append.mp hq with hq | hq
      · exact hdisj r (List.mem_cons_of_mem p hr) q hq
      · have hqe : q = (p.2, p.1) := by simpa using hq
        rw [hqe]
        intro he
        have he2 : p.2 = r.2 := he
        exact hnd2.1 (by rw [he2]; exact List.mem_map_of_mem Prod.snd hr)

theorem invDict_eq {m : List (String × String)}
    (hvals : (m.map Prod.snd).Nodup) :
    invDict m = m.map (fun p => (p.2, p.1)) := by
  unfold invDict
  rw [foldl_dictSet_fresh m [] (by intro p _ q hq; simp at hq) hvals]
  simp

/-- C9: for every bijection whose mapping has no duplicate values — the keys
are unique by construction, being the keys of a Python dict — and for every
entry `(k, v)` of the mapping, `get_right k` returns `v` (i.e. `mapping[k]`)
and `get_left v` returns `k`. -/
theorem claim_C9_bijection_roundtrip (b : Bijection) (k v : String)
    (hkeys : (b.mapping.map Prod.fst).Nodup)
    (hvals : (b.mapping.map Prod.snd).Nodup)
    (hmem : (k, v) ∈ b.mapping) :
    b.get_right k = some v ∧ b.get_left v = some k := by
  constructor
  · exact dictGet_eq_of_mem hkeys hmem
  · unfold Bijection.get_left
    rw [invDict_eq hvals]
    apply dictGet_eq_of_mem
    · simpa [List.map_map, Function.comp] using hvals
    · exact List.mem_map_of_mem (fun p => (p.2, p.1)) hmem

/-- Witness bijection for C9 (the pinout mapping of the test suite). -/
def exC9bijection : Bijection :=
  { id := "pinout", left_set := ["VCC", "GND"], right_set := ["5", "6"]
    mapping := [("VCC", "5"), ("GND", "6")]
    origin := { x := mkRat 0 1, y := mkRat 0 1 }, doc_id := "doc1", page := 0, bbox := none }

theorem claim_C9_bijection_roundtrip_witness :
    exC9bijection.get_right "GND" = some "6" ∧ exC9bijection.get_left "6" = some "GND" :=
  claim_C9_bijection_roundtrip exC9bijection "GND" "6" (by decide) (by decide) (by decide)

/-! ## Normalizer lemmas (C5, C6) -/

theorem synthUnitId_injective (page : Nat) {i j : Nat}
    (h : synthUnitId page i = synthUnitId page j) : i = j := by
  unfold synthUnitId at h
  have hd := congrArg String.data h
  simp only [String.data_append] at hd
  exact natStr_injective (String.ext (List.append_cancel_left hd))

theorem normalizeUnitsAux_mem {page : Nat} :
    ∀ {entries : List RawEntry} {i0 : Nat} {u : NormUnit},
      u ∈ normalizeUnitsAux page i0 entries →
      ∃ j e, entries.get? j = some e ∧ normalizeUnitEntry page (i0 + j) e = some u := by
  intro entries
  induction entries with
  | nil => intro i0 u h; simp [normalizeUnitsAux] at h
  | cons e es ih =>
    intro i0 u h
    simp only [normalizeUnitsAux] at h
    cases hne : normalizeUnitEntry page i0 e with
    | some u0 =>
      rw [hne] at h
      rcases List.mem_cons.mp h with rfl | h
      · exact ⟨0, e, rfl, by simpa using hne⟩
      · obtain ⟨j, e2, hg, hn⟩ := ih h
        refine ⟨j + 1, e2, hg, ?_⟩
        rw [show i0 + (j + 1) = (i0 + 1) + j by omega]
        exact hn
    | none =>
      rw [hne] at h
      obtain ⟨j, e2, hg, hn⟩ := ih h
      refine ⟨j + 1, e2, hg, ?_⟩
      rw [show i0 + (j + 1) = (i0 + 1) + j by omega]
      exact hn

theorem normalizeUnitEntry_some {page i : Nat} {e : RawEntry} {u : NormUnit}
    (h : normalizeUnitEntry page i e = some u) :
    ∃ f origin, e = .udict f ∧ normalizeOrigin f.origin = some origin ∧
      u.id = (match asStr f.id with
        | some s => if pyStrip s ≠ "" then s else synthUnitId page i
        | none => synthUnitId page i) ∧
      u.value = (match (match f.value with
          | some v => some v
          | none => pyOr (pyOr f.text f.label) f.content) with
        | some v => v
        | none => .js "") := by
  cases e with
  | nondict => simp [normalizeUnitEntry] at h
  | udict f =>
    cases ho : normalizeOrigin f.origin with
    | none => simp [normalizeUnitEntry, ho] at h
    | some origin =>
      simp only [normalizeUnitEntry, ho] at h
      injection h with h
      exact ⟨f, origin, rfl, ho, by rw [← h], by rw [← h]⟩

theorem normalizeUnitEntry_isSome (page i : Nat) (e : RawEntry) :
    (normalizeUnitEntry page i e).isSome ↔
      ∃ f, e = .udict f ∧ (normalizeOrigin f.origin).isSome := by
  cases e with
  | nondict => simp [normalizeUnitEntry]
  | udict f =>
    cases ho : normalizeOrigin f.origin with
    | none => simp [normalizeUnitEntry, ho]
    | some origin => simp [normalizeUnitEntry, ho]

/-- The value-selection rule as the corrected claim words it: the `value`
field wins whenever present (even if falsy); otherwise the first truthy of
`text`, `label`; otherwise `content` whenever present; otherwise the empty
string. -/
def valueSpec (f : RawUnitFields) : JVal :=
  match f.value with
  | some v => v
  | none =>
    if (f.text.map JVal.truthy).getD false then f.text.getD (.js "")
    else if (f.label.map JVal.truthy).getD false then f.label.getD (.js "")
    else f.content.getD (.js "")

theorem pyOr_chain_valueSpec (f : RawUnitFields) :
    (match (match f.value with
        | some v => some v
        | none => pyOr (pyOr f.text f.label) f.content) with
      | some v => v
      | none => .js "") = valueSpec f := by
  cases hv : f.value with
  | some v => simp [valueSpec, hv]
  | none =>
    simp only [valueSpec, hv]
    cases ht : f.text with
    | none =>
      cases hl : f.label with
      | none => cases hc : f.content <;> simp [pyOr]
      | some lv => by_cases hlt : lv.truthy <;> cases hc : f.content <;> simp [pyOr, hlt]
    | some tv =>
      by_cases htt : tv.truthy
      · simp [pyOr, htt]
      · cases hl : f.label with
        | none =>
          cases hc : f.content <;> simp [pyOr, htt]
        | some lv =>
          by_cases hlt : lv.truthy <;> cases hc : f.content <;> simp [pyOr, htt, hlt]

/-- C5 (corrected): a kept raw unit entry keeps its provided string id when
that id is non-empty after stripping; otherwise it is assigned
`p{page}_u{i}` where `i` is the entry's position in the page's RAW units
list — dropped entries included, not the position in the surviving list —
and synthesized ids for distinct raw positions never collide, which is what
makes them unique within a page. -/
theorem claim_C5_amended (page : Nat) (entries : List RawEntry) (u : NormUnit)
    (hu : u ∈ normalizeUnits page entries) :
    (∃ i f, entries.get? i = some (.udict f) ∧ (normalizeOrigin f.origin).isSome ∧
      u.id = (match asStr f.id with
        | some s => if pyStrip s ≠ "" then s else synthUnitId page i
        | none => synthUnitId page i)) ∧
    ∀ i j : Nat, i ≠ j → synthUnitId page i ≠ synthUnitId page j := by
  constructor
  · obtain ⟨j, e, hg, hn⟩ := normalizeUnitsAux_mem (by simpa [normalizeUnits] using hu)
    obtain ⟨f, origin, rfl, ho, hid, _⟩ := normalizeUnitEntry_some (by simpa using hn)
    exact ⟨j, f, hg, by simp [ho], hid⟩
  · intro i j hne he
    exact hne (synthUnitId_injective page he)

/-- C5 counterexample input: entry 0 is dropped (its origin does not
normalize), entry 1 is kept and carries no id. -/
def exC5entries : List RawEntry :=
  [.udict { id := none, label := none, value := some (.js "3.3"), text := none,
            content := none, unit_of_measure := none, origin := .other, bbox := .other },
   .udict { id := none, label := none, value := some (.js "5.0"), text := none,
            content := none, unit_of_measure := none,
            origin := .odict (some (.jn (mkRat 1 10))) (some (.jn (mkRat 2 10))),
            bbox := .other }]

/-- C5 counterexample: the sole kept entry sits at position 0 of the
surviving list, so the claim predicts id `p0_u0` (`synthUnitId 0 0`); the
code synthesizes from the raw-list position and produces `p0_u1`. -/
theorem claim_C5_counterexample :
    (normalizeUnits 0 exC5entries).map (fun u => u.id) = [synthUnitId 0 1] ∧
    synthUnitId 0 1 ≠ synthUnitId 0 0 := by decide

/-- The unit the C5 counterexample input normalizes to. -/
def exC5unit : NormUnit :=
  { id := "p0_u1", label := none, value := .js "5.0", unit_of_measure := none,
    origin := { x := mkRat 1 10, y := mkRat 2 10 }, bbox := none }

theorem claim_C5_amended_witness :
    (∃ i f, exC5entries.get? i = some (.udict f) ∧ (normalizeOrigin f.origin).isSome ∧
      exC5unit.id = (match asStr f.id with
        | some s => if pyStrip s ≠ "" then s else synthUnitId 0 i
        | none => synthUnitId 0 i)) ∧
    ∀ i j : Nat, i ≠ j → synthUnitId 0 i ≠ synthUnitId 0 j :=
  claim_C5_amended 0 exC5entries exC5unit (by decide)

/-- C6 counterexample input: `value` is absent, `text` is present but the
empty string, `label` is `"L"`. -/
def exC6entry : RawEntry :=
  .udict { id := some (.js "u0"), label := some (.js "L"), value := none,
           text := some (.js ""), content := none, unit_of_measure := none,
           origin := .odict (some (.jn (mkRat 0 1))) (some (.jn (mkRat 0 1))),
           bbox := .other }

/-- C6 counterexample: the first PRESENT of value/text/label/content is
`text = ""`, so the claim predicts normalized value `""`; the code's
`or`-chain skips the falsy `text` and takes `label = "L"`. -/
theorem claim_C6_counterexample :
    (normalizeUnits 0 [exC6entry]).map (fun u => u.value) = [.js "L"] ∧
    JVal.js "L" ≠ .js "" := by decide

/-- C6 (corrected): a kept entry's normalized value is the `value` field
whenever present (even falsy); otherwise the first TRUTHY of `text`,
`label`; otherwise `content` whenever present; otherwise the empty string.
An entry is never dropped for a missing value: it is kept exactly when it
is a map whose origin normalizes. -/
theorem claim_C6_amended (page i : Nat) (e : RawEntry) :
    ((normalizeUnitEntry page i e).isSome ↔
      ∃ f, e = .udict f ∧ (normalizeOrigin f.origin).isSome) ∧
    ∀ u, normalizeUnitEntry page i e = some u →
      ∃ f, e = .udict f ∧ u.value = valueSpec f := by
  refine ⟨normalizeUnitEntry_isSome page i e, ?_⟩
  intro u h
  obtain ⟨f, origin, rfl, ho, _, hval⟩ := normalizeUnitEntry_some h
  exact ⟨f, rfl, by rw [hval, pyOr_chain_valueSpec]⟩

/-- The unit the C6 counterexample input normalizes to. -/
def exC6unit : NormUnit :=
  { id := "u0", label := some "L", value := .js "L", unit_of_measure := none,
    origin := { x := mkRat 0 1, y := mkRat 0 1 }, bbox := none }

theorem claim_C6_amended_witness :
    ∃ f, exC6entry = .udict f ∧ exC6unit.value = valueSpec f :=
  (claim_C6_amended 0 0 exC6entry).2 exC6unit (by decide)

/-! ## Grid pin lookup (C4) -/

theorem gridPinAnswer_some {g : Grid} {n : String} {a : AnswerWithProof}
    (h : gridPinAnswer n g = some a) :
    ∃ i rc cell,
      (rowMajor g).get? i = some rc ∧
      g.get_cell rc.1 rc.2 = some cell ∧
      pyStr cell.value = n ∧
      (∀ j, j < i → ∀ rc2, (rowMajor g).get? j = some rc2 →
        ∀ cell2, g.get_cell rc2.1 rc2.2 = some cell2 → pyStr cell2.value ≠ n) ∧
      a = mkGridAnswer (match adjCell g rc.1 rc.2 with
        | some nc => pyStr nc.value
        | none => pyStr cell.value) (cellPoint g cell) g := by
  unfold gridPinAnswer at h
  cases hs : gridScan g n with
  | none => rw [hs] at h; exact absurd h (by simp)
  | some rcc =>
    obtain ⟨row, col, cell⟩ := rcc
    rw [hs] at h
    dsimp only at h
    injection h with h
    have hfirst := findSome?_first (by unfold gridScan at hs; exact hs)
    obtain ⟨i, rc, hget, hf, hearlier⟩ := hfirst
    cases hcell : g.get_cell rc.1 rc.2 with
    | none => rw [hcell] at hf; exact absurd hf (by simp)
    | some c0 =>
      rw [hcell] at hf
      dsimp only at hf
      by_cases hval : pyStr c0.value = n
      · rw [if_pos hval] at hf
        injection hf with hf
        have h1 : rc.1 = row := congrArg (fun t => t.1) hf
        have h2 : rc.2 = col := congrArg (fun t => t.2.1) hf
        have h3 : c0 = cell := congrArg (fun t => t.2.2) hf
        refine ⟨i, rc, cell, hget, by rw [← h3]; exact hcell, by rw [← h3]; exact hval,
          ?_, ?_⟩
        · intro j hj rc2 hget2 cell2 hcell2 hval2
          have hnone := hearlier j hj rc2 hget2
          rw [hcell2] at hnone
          dsimp only at hnone
          rw [if_pos hval2] at hnone
          exact absurd hnone (by simp)
        · rw [h1, h2]
          exact h.symm
      · rw [if_neg hval] at hf
        exact absurd hf (by simp)

/-- C4 (corrected): when a pin question reaches the grid stage, the first
cell in row-major scan order whose stringified value equals the pin number
is the matched (pin-number) cell, and the answer is the adjacent cell's
value — `col+1` preferred, falling back to `col-1` — except that when
neither adjacent cell exists (e.g. a one-column grid) the matched cell's
OWN value is returned. -/
theorem claim_C4_grid_adjacent (q : String) (grids : List Grid) (a : AnswerWithProof)
    (h : _try_pin_lookup q [] grids = some a) :
    ∃ n g, searchFirst matchPinAt (pyStrip (pyLower q)).data = some n ∧
      g ∈ grids ∧ gridPinAnswer n g = some a ∧
      ∃ i rc cell,
        (rowMajor g).get? i = some rc ∧
        g.get_cell rc.1 rc.2 = some cell ∧
        pyStr cell.value = n ∧
        (∀ j, j < i → ∀ rc2, (rowMajor g).get? j = some rc2 →
          ∀ cell2, g.get_cell rc2.1 rc2.2 = some cell2 → pyStr cell2.value ≠ n) ∧
        a = mkGridAnswer (match adjCell g rc.1 rc.2 with
          | some nc => pyStr nc.value
          | none => pyStr cell.value) (cellPoint g cell) g := by
  unfold _try_pin_lookup at h
  dsimp only at h
  cases hp : searchFirst matchPinAt (pyStrip (pyLower q)).data with
  | none => rw [hp] at h; exact absurd h (by simp)
  | some n =>
    rw [hp] at h
    dsimp only [List.findSome?] at h
    obtain ⟨g, hg, hga⟩ := findSome?_mem h
    exact ⟨n, g, rfl, hg, hga, gridPinAnswer_some hga⟩

/-- C4 counterexample grid: a single cell, hence no adjacent cell. -/
def exC4grid : Grid :=
  { id := "g1", rows := 1, cols := 1
    cells := [{ row := 0, col := 0, value := .vstr "5", origin := none }]
    origin := { x := mkRat 0 1, y := mkRat 0 1 }, doc_id := "doc1", page := 0, bbox := none }

/-- C4 counterexample: pin 5 matches the single cell of a 1×1 grid; no
adjacent cell exists, and the engine answers with the matched cell's OWN
value `"5"` — contradicting the claim that the answer is the adjacent
cell's value, "not the matched cell's own value". -/
theorem claim_C4_counterexample :
    (verify_and_answer "What is pin 5?" [] [] [exC4grid]).status = "answer" ∧
    (verify_and_answer "What is pin 5?" [] [] [exC4grid]).payload = "5" ∧
    (exC4grid.get_cell 0 0).map (fun c => pyStr c.value) = some "5" ∧
    adjCell exC4grid 0 0 = none := by decide

/-- Witness grid for the amended C4: the pinout grid of the test suite. -/
def exC4grid2 : Grid :=
  { id := "pinout", rows := 3, cols := 2
    cells := [
      { row := 0, col := 0, value := .vstr "Pin", origin := some { x := mkRat 1 10, y := mkRat 1 10 } },
      { row := 0, col := 1, value := .vstr "Name", origin := some { x := mkRat 5 10, y := mkRat 1 10 } },
      { row := 1, col := 0, value := .vstr "5", origin := some { x := mkRat 1 10, y := mkRat 2 10 } },
      { row := 1, col := 1, value := .vstr "VCC", origin := some { x := mkRat 5 10, y := mkRat 2 10 } },
      { row := 2, col := 0, value := .vstr "6", origin := some { x := mkRat 1 10, y := mkRat 3 10 } },
      { row := 2, col := 1, value := .vstr "GND", origin := some { x := mkRat 5 10, y := mkRat 3 10 } }]
    origin := { x := mkRat 0 1, y := mkRat 0 1 }, doc_id := "doc1", page := 0, bbox := none }

/-- The answer the witness grid produces for pin 5. -/
def exC4answer : AnswerWithProof :=
  mkGridAnswer "VCC" { x := mkRat 1 10, y := mkRat 2 10 } exC4grid2

theorem claim_C4_grid_adjacent_witness :
    ∃ n g, searchFirst matchPinAt (pyStrip (pyLower "What is pin 5?")).data = some n ∧
      g ∈ [exC4grid2] ∧ gridPinAnswer n g = some exC4answer ∧
      ∃ i rc cell,
        (rowMajor g).get? i = some rc ∧
        g.get_cell rc.1 rc.2 = some cell ∧
        pyStr cell.value = n ∧
        (∀ j, j < i → ∀ rc2, (rowMajor g).get? j = some rc2 →
          ∀ cell2, g.get_cell rc2.1 rc2.2 = some cell2 → pyStr cell2.value ≠ n) ∧
        exC4answer = mkGridAnswer (match adjCell g rc.1 rc.2 with
          | some nc => pyStr nc.value
          | none => pyStr cell.value) (cellPoint g cell) g :=
  claim_C4_grid_adjacent "What is pin 5?" [exC4grid2] exC4answer (by decide)

/-! ## Maximum-current matcher (C7) -/

theorem currentCandsOf_unit {u : Unit} {c : Rat × Unit × String}
    (h : c ∈ currentCandsOf u) : c.2.1 = u := by
  unfold currentCandsOf at h
  rcases List.mem_append.mp h with h | h
  · split at h
    · cases hf : pyFloat u.value with
      | some v =>
        rw [hf] at h
        have : c = (v, u, u.unit_of_measure.getD "A") := by simpa using h
        rw [this]
      | none => rw [hf] at h; simp at h
    · simp at h
  · obtain ⟨p, _, hp⟩ := List.mem_map.mp h
    rw [← hp]

/-- C7 (corrected): the current matcher does NOT prefer structured units over
regex-parsed text — it collects, for every unit, the structured candidate
(when the uppercased `unit_of_measure` is a member of the source tuple
`("A", "MA", "µA")`, which `µA` can never match after uppercasing, and the
value parses) TOGETHER WITH all regex-parsed candidates from the unit's
text, and answers the maximum numeric value over the combined list, ties
broken by first-encountered in candidate order. -/
theorem claim_C7_amended (q : String) (units : List Unit) (a : AnswerWithProof)
    (h : _try_max_current q units = some a) :
    ∃ (c : Rat × Unit × String) (l₁ l₂ : List (Rat × Unit × String)),
      units.flatMap currentCandsOf = l₁ ++ c :: l₂ ∧
      (∀ x ∈ l₁, x.1 < c.1) ∧
      (∀ x ∈ l₂, ¬ c.1 < x.1) ∧
      c.2.1 ∈ units ∧
      a = mkUnitAnswer (pyStrip (floatRepr c.1 ++ " " ++ c.2.2)) c.2.1 := by
  unfold _try_max_current at h
  dsimp only at h
  split at h
  · exact absurd h (by simp)
  split at h
  · exact absurd h (by simp)
  cases hc : units.flatMap currentCandsOf with
  | nil => rw [hc] at h; exact absurd h (by simp)
  | cons c0 cs =>
    rw [hc] at h
    dsimp only at h
    injection h with h
    obtain ⟨l₁, l₂, heq, hfront, hback⟩ :=
      pyMaxBy_sandwich (fun a b : Rat × Unit × String => decide (a.1 < b.1))
        fstLt_trans fstLt_D cs c0
    have hmem := pyMaxBy_mem (fun a b : Rat × Unit × String => decide (a.1 < b.1)) cs c0
    rw [← hc] at hmem
    obtain ⟨u, hu, hcu⟩ := List.mem_flatMap.mp hmem
    refine ⟨_, l₁, l₂, heq, ?_, ?_, ?_, h.symm⟩
    · intro x hx
      exact of_decide_eq_true (hfront x hx)
    · intro x hx
      exact of_decide_eq_false (hback x hx)
    · rw [currentCandsOf_unit hcu]; exact hu

/-- C7 counterexample units: `u1` is a structured current unit (uom `A`,
value `1`); `u2` has no structured uom but its label text parses as `2 A`. -/
def exC7unitA : Unit :=
  { id := "u1", label := none, value := .vstr "1", unit_of_measure := some "A"
    context := none, origin := { x := mkRat 1 10, y := mkRat 1 10 }
    doc_id := "d", page := 0, bbox := none }

/-- Companion unit for the C7 counterexample. -/
def exC7unitB : Unit :=
  { id := "u2", label := some "2 A", value := .vstr "", unit_of_measure := none
    context := none, origin := { x := mkRat 2 10, y := mkRat 2 10 }
    doc_id := "d", page := 0, bbox := none }

/-- C7 counterexample: a structured current unit exists (`u1`: uppercased
uom `"A"` is in the set and its value parses), so the claim's two-phase rule
must answer from the structured candidates — maximum `1 A`.  The code mixes
in `u2`'s regex-parsed `2 A` and answers `"2.0 A"` sourced from `u2`. -/
theorem claim_C7_counterexample :
    (verify_and_answer "What is the maximum current?" [exC7unitA, exC7unitB] [] []).status
        = "answer" ∧
    (verify_and_answer "What is the maximum current?" [exC7unitA, exC7unitB] [] []).payload
        = "2.0 A" ∧
    (verify_and_answer "What is the maximum current?" [exC7unitA, exC7unitB] [] []).sourceId
        = some "u2" ∧
    optStrTruthy exC7unitA.unit_of_measure = true ∧
    currentUoms.contains (pyUpper (exC7unitA.unit_of_measure.getD "")) = true ∧
    pyFloat exC7unitA.value = some (mkRat 1 1) := by decide

/-- The answer of the C7 counterexample input, reused as the witness
instance of the amended theorem. -/
def exC7answer : AnswerWithProof := mkUnitAnswer "2.0 A" exC7unitB

theorem claim_C7_amended_witness :
    ∃ (c : Rat × Unit × String) (l₁ l₂ : List (Rat × Unit × String)),
      [exC7unitA, exC7unitB].flatMap currentCandsOf = l₁ ++ c :: l₂ ∧
      (∀ x ∈ l₁, x.1 < c.1) ∧
      (∀ x ∈ l₂, ¬ c.1 < x.1) ∧
      c.2.1 ∈ [exC7unitA, exC7unitB] ∧
      exC7answer = mkUnitAnswer (pyStrip (floatRepr c.1 ++ " " ++ c.2.2)) c.2.1 :=
  claim_C7_amended "What is the maximum current?" [exC7unitA, exC7unitB] exC7answer (by decide)

/-! ## Intent-scored matcher tie break (C8) -/

theorem mem_of_mem_if {w : Bool} {l : List α} {c : α}
    (h : c ∈ if w = true then l else []) : c ∈ l := by
  cases w
  · simp at h
  · simpa using h

theorem intentBlock_unit {overlap : Nat} {uoms : List String}
    {parsed : List (Rat × String)} {u : Unit} {c : IntentCand}
    (h : c ∈ intentBlock overlap uoms parsed u) : c.unit = u := by
  unfold intentBlock at h
  rcases List.mem_append.mp h with h | h
  · split at h
    · cases hf : pyFloat u.value with
      | some v =>
        rw [hf] at h
        dsimp only at h
        simp only [List.mem_singleton] at h
        rw [h]
      | none => rw [hf] at h; simp at h
    · simp at h
  · obtain ⟨p, _, hp⟩ := List.mem_map.mp h
    rw [← hp]

theorem intentCandsOf_unit {ql : String} {wv wc wcap : Bool} {u : Unit} {c : IntentCand}
    (h : c ∈ intentCandsOf ql wv wc wcap u) : c.unit = u := by
  unfold intentCandsOf at h
  dsimp only at h
  rcases List.mem_append.mp h with h | h
  · rcases List.mem_append.mp h with h | h
    · exact intentBlock_unit (mem_of_mem_if h)
    · exact intentBlock_unit (mem_of_mem_if h)
  · exact intentBlock_unit (mem_of_mem_if h)

theorem intentCandidates_unit {q : String} {units : List Unit} {c : IntentCand}
    (h : c ∈ intentCandidates q units) : c.unit ∈ units := by
  unfold intentCandidates at h
  dsimp only at h
  obtain ⟨u, hu, hcu⟩ := List.mem_flatMap.mp h
  rw [intentCandsOf_unit hcu]
  exact hu

/-- C8 (corrected): the intent matcher picks the candidate with the highest
score, but ties on equal scores are broken by GREATEST `origin.y` then
GREATEST `origin.x` — the bottom-most, then right-most unit (the key is
maximized and y grows downward) — with the first encountered winning only
among fully equal keys; not top-to-bottom/left-to-right as claimed. -/
theorem claim_C8_amended (q : String) (units : List Unit) (a : AnswerWithProof)
    (h : _try_unit_by_intent q units = some a) :
    ∃ (c : IntentCand) (l₁ l₂ : List IntentCand),
      intentCandidates q units = l₁ ++ c :: l₂ ∧
      (∀ x ∈ l₁, lex3Lt (intentKey x) (intentKey c)) ∧
      (∀ x ∈ l₂, ¬ lex3Lt (intentKey c) (intentKey x)) ∧
      c.unit ∈ units ∧
      a = mkUnitAnswer c.answer c.unit := by
  unfold _try_unit_by_intent at h
  cases hc : intentCandidates q units with
  | nil => rw [hc] at h; exact absurd h (by simp)
  | cons c0 cs =>
    rw [hc] at h
    dsimp only at h
    injection h with h
    obtain ⟨l₁, l₂, heq, hfront, hback⟩ :=
      pyMaxBy_sandwich intentKeyLt intentKeyLt_trans intentKeyLt_D cs c0
    have hmem := pyMaxBy_mem intentKeyLt cs c0
    rw [← hc] at hmem
    refine ⟨_, l₁, l₂, heq, ?_, ?_, intentCandidates_unit hmem, h.symm⟩
    · intro x hx
      exact of_decide_eq_true (hfront x hx)
    · intro x hx
      exact of_decide_eq_false (hback x hx)

/-- C8 counterexample units: both are structured voltage units with the same
score; `i1` lies near the top of the page, `i2` near the bottom. -/
def exC8top : Unit :=
  { id := "i1", label := none, value := .vstr "3", unit_of_measure := some "V"
    context := none, origin := { x := mkRat 1 10, y := mkRat 1 10 }
    doc_id := "d", page := 0, bbox := none }

/-- Companion bottom unit for the C8 counterexample. -/
def exC8bottom : Unit :=
  { id := "i2", label := none, value := .vstr "5", unit_of_measure := some "V"
    context := none, origin := { x := mkRat 1 10, y := mkRat 9 10 }
    doc_id := "d", page := 0, bbox := none }

/-- C8 counterexample: both candidates score 10; the claim's top-to-bottom
tie break predicts the top unit `i1` (`y = 0.1`), but the engine answers
from the bottom unit `i2` (`y = 0.9`), because `max` maximizes the
`(score, y, x)` key. -/
theorem claim_C8_counterexample :
    (intentCandidates "What is the charge voltage?" [exC8top, exC8bottom]).map
        (fun c => (c.score, c.unit.id)) = [(10, "i1"), (10, "i2")] ∧
    exC8top.origin.y < exC8bottom.origin.y ∧
    (verify_and_answer "What is the charge voltage?" [exC8top, exC8bottom] [] []).status
        = "answer" ∧
    (verify_and_answer "What is the charge voltage?" [exC8top, exC8bottom] [] []).payload
        = "5 V" ∧
    (verify_and_answer "What is the charge voltage?" [exC8top, exC8bottom] [] []).sourceId
        = some "i2" := by decide

/-- The answer of the C8 counterexample input, reused as the witness
instance of the amended theorem. -/
def exC8answer : AnswerWithProof := mkUnitAnswer "5 V" exC8bottom

theorem claim_C8_amended_witness :
    ∃ (c : IntentCand) (l₁ l₂ : List IntentCand),
      intentCandidates "What is the charge voltage?" [exC8top, exC8bottom] = l₁ ++ c :: l₂ ∧
      (∀ x ∈ l₁, lex3Lt (intentKey x) (intentKey c)) ∧
      (∀ x ∈ l₂, ¬ lex3Lt (intentKey c) (intentKey x)) ∧
      c.unit ∈ [exC8top, exC8bottom] ∧
      exC8answer = mkUnitAnswer c.answer c.unit :=
  claim_C8_amended "What is the charge voltage?" [exC8top, exC8bottom] exC8answer (by decide)

/-! ## Shape of every matcher's answer (C10) -/

theorem voltNumeric_unit_mem {units : List Unit} {c : Rat × Unit}
    (h : c ∈ voltNumeric units) : c.2 ∈ units := by
  unfold voltNumeric at h
  split at h
  · obtain ⟨u, hu, hc⟩ := List.mem_flatMap.mp h
    obtain ⟨p, _, hp⟩ := List.mem_map.mp hc
    rw [← hp]
    exact hu
  · unfold voltStructured at h
    obtain ⟨u, hu, hc⟩ := List.mem_filterMap.mp h
    cases hf : pyFloat u.value with
    | none => rw [hf] at hc; exact absurd hc (by simp)
    | some v =>
      rw [hf] at hc
      injection hc with hc
      rw [← hc]
      exact List.mem_of_mem_filter hu

theorem _try_voltage_max_shape {q : String} {units : List Unit} {a : AnswerWithProof}
    (h : _try_voltage_max q units = some a) :
    ∃ u ∈ units, ∃ s, a = mkUnitAnswer s u := by
  unfold _try_voltage_max at h
  dsimp only at h
  split at h
  · exact absurd h (by simp)
  split at h
  · exact absurd h (by simp)
  cases hc : voltNumeric units with
  | nil => rw [hc] at h; exact absurd h (by simp)
  | cons c0 cs =>
    rw [hc] at h
    dsimp only at h
    injection h with h
    have hmem := pyMaxBy_mem (fun a b : Rat × Unit => decide (a.1 < b.1)) cs c0
    rw [← hc] at hmem
    exact ⟨_, voltNumeric_unit_mem hmem, _, h.symm⟩

theorem capacityCandsOf_unit {u : Unit} {c : Rat × Unit × String}
    (h : c ∈ capacityCandsOf u) : c.2.1 = u := by
  unfold capacityCandsOf at h
  rcases List.mem_append.mp h with h | h
  · obtain ⟨p, _, hp⟩ := List.mem_map.mp h
    rw [← hp]
  · split at h
    · cases hf : pyFloat u.value with
      | some v =>
        rw [hf] at h
        have hcc : c = (v, u, u.unit_of_measure.getD "mAh") := by simpa using h
        rw [hcc]
      | none => rw [hf] at h; simp at h
    · simp at h

theorem _try_max_current_shape {q : String} {units : List Unit} {a : AnswerWithProof}
    (h : _try_max_current q units = some a) :
    ∃ u ∈ units, ∃ s, a = mkUnitAnswer s u := by
  unfold _try_max_current at h
  dsimp only at h
  split at h
  · exact absurd h (by simp)
  split at h
  · exact absurd h (by simp)
  cases hc : units.flatMap currentCandsOf with
  | nil => rw [hc] at h; exact absurd h (by simp)
  | cons c0 cs =>
    rw [hc] at h
    dsimp only at h
    injection h with h
    have hmem := pyMaxBy_mem (fun a b : Rat × Unit × String => decide (a.1 < b.1)) cs c0
    rw [← hc] at hmem
    obtain ⟨u, hu, hcu⟩ := List.mem_flatMap.mp hmem
    refine ⟨_, ?_, _, h.symm⟩
    rw [currentCandsOf_unit hcu]
    exact hu

theorem _try_max_capacity_shape {q : String} {units : List Unit} {a : AnswerWithProof}
    (h : _try_max_capacity q units = some a) :
    ∃ u ∈ units, ∃ s, a = mkUnitAnswer s u := by
  unfold _try_max_capacity at h
  dsimp only at h
  split at h
  · exact absurd h (by simp)
  split at h
  · exact absurd h (by simp)
  cases hc : units.flatMap capacityCandsOf with
  | nil => rw [hc] at h; exact absurd h (by simp)
  | cons c0 cs =>
    rw [hc] at h
    dsimp only at h
    injection h with h
    have hmem := pyMaxBy_mem (fun a b : Rat × Unit × String => decide (a.1 < b.1)) cs c0
    rw [← hc] at hmem
    obtain ⟨u, hu, hcu⟩ := List.mem_flatMap.mp hmem
    refine ⟨_, ?_, _, h.symm⟩
    rw [capacityCandsOf_unit hcu]
    exact hu

theorem _try_unit_by_intent_shape {q : String} {units : List Unit} {a : AnswerWithProof}
    (h : _try_unit_by_intent q units = some a) :
    ∃ u ∈ units, ∃ s, a = mkUnitAnswer s u := by
  unfold _try_unit_by_intent at h
  cases hc : intentCandidates q units with
  | nil => rw [hc] at h; exact absurd h (by simp)
  | cons c0 cs =>
    rw [hc] at h
    dsimp only at h
    injection h with h
    have hmem := pyMaxBy_mem intentKeyLt cs c0
    rw [← hc] at hmem
    exact ⟨_, intentCandidates_unit hmem, _, h.symm⟩

theorem unitLookupAnswer_shape {ql : String} {u : Unit} {a : AnswerWithProof}
    (h : unitLookupAnswer ql u = some a) : ∃ s, a = mkUnitAnswer s u := by
  unfold unitLookupAnswer at h
  split at h
  · injection h with h; exact ⟨_, h.symm⟩
  split at h
  · injection h with h; exact ⟨_, h.symm⟩
  · exact absurd h (by simp)

theorem _try_unit_lookup_shape {q : String} {units : List Unit} {a : AnswerWithProof}
    (h : _try_unit_lookup q units = some a) :
    ∃ u ∈ units, ∃ s, a = mkUnitAnswer s u := by
  unfold _try_unit_lookup at h
  dsimp only at h
  obtain ⟨u, hu, hf⟩ := findSome?_mem h
  obtain ⟨s, hs⟩ := unitLookupAnswer_shape hf
  exact ⟨u, hu, s, hs⟩

theorem bijPinAnswer_shape {n : String} {b : Bijection} {a : AnswerWithProof}
    (h : bijPinAnswer n b = some a) : ∃ s, a = mkBijAnswer s b := by
  unfold bijPinAnswer at h
  cases hr : b.get_right n with
  | some right => rw [hr] at h; dsimp only at h; injection h with h; exact ⟨_, h.symm⟩
  | none =>
    rw [hr] at h
    dsimp only at h
    cases hl : b.get_left n with
    | some left => rw [hl] at h; dsimp only at h; injection h with h; exact ⟨_, h.symm⟩
    | none => rw [hl] at h; exact absurd h (by simp)

theorem gridPinAnswer_shape {n : String} {g : Grid} {a : AnswerWithProof}
    (h : gridPinAnswer n g = some a) : ∃ s pt, a = mkGridAnswer s pt g := by
  unfold gridPinAnswer at h
  cases hs : gridScan g n with
  | none => rw [hs] at h; exact absurd h (by simp)
  | some rcc =>
    obtain ⟨row, col, cell⟩ := rcc
    rw [hs] at h
    dsimp only at h
    injection h with h
    exact ⟨_, _, h.symm⟩

theorem _try_pin_lookup_shape {q : String} {bs : List Bijection} {gs : List Grid}
    {a : AnswerWithProof} (h : _try_pin_lookup q bs gs = some a) :
    (∃ b ∈ bs, ∃ s, a = mkBijAnswer s b) ∨
    (∃ g ∈ gs, ∃ s pt, a = mkGridAnswer s pt g) := by
  unfold _try_pin_lookup at h
  dsimp only at h
  cases hp : searchFirst matchPinAt (pyStrip (pyLower q)).data with
  | none => rw [hp] at h; exact absurd h (by simp)
  | some n =>
    rw [hp] at h
    dsimp only at h
    cases hb : bs.findSome? (bijPinAnswer n) with
    | some a0 =>
      rw [hb] at h
      dsimp only at h
      injection h with h
      subst h
      obtain ⟨b, hbmem, hba⟩ := findSome?_mem hb
      exact .inl ⟨b, hbmem, bijPinAnswer_shape hba⟩
    | none =>
      rw [hb] at h
      dsimp only at h
      obtain ⟨g, hgmem, hga⟩ := findSome?_mem h
      exact .inr ⟨g, hgmem, gridPinAnswer_shape hga⟩

/-- C10: whenever `verify_and_answer` returns an answer, the proof list is a
single `ProofPoint` (exactly one, not merely non-empty) whose `source_id`
and `source_type` equal the answer's top-level `source_id`/`source_type`,
and that point identifies one canonical fact of the input — a unit,
bijection or grid whose `id` and `page` the point carries. -/
theorem claim_C10_single_proof_point (q : String) (us : List Unit)
    (bs : List Bijection) (gs : List Grid) (a : AnswerWithProof)
    (h : verify_and_answer q us bs gs = .answer a) :
    ∃ p, a.proof = [p] ∧ p.source_id = a.source_id ∧ p.source_type = a.source_type ∧
      ((∃ u ∈ us, a.source_id = some u.id ∧ a.source_type = some "unit" ∧ p.page = u.page) ∨
       (∃ b ∈ bs, a.source_id = some b.id ∧ a.source_type = some "bijection" ∧ p.page = b.page) ∨
       (∃ g ∈ gs, a.source_id = some g.id ∧ a.source_type = some "grid" ∧ p.page = g.page)) := by
  unfold verify_and_answer at h
  cases h1 : _try_pin_lookup q bs gs with
  | some a0 =>
    rw [h1] at h
    dsimp only at h
    injection h with h
    subst h
    rcases _try_pin_lookup_shape h1 with ⟨b, hb, s, rfl⟩ | ⟨g, hg, s, pt, rfl⟩
    · exact ⟨_, rfl, rfl, rfl, .inr (.inl ⟨b, hb, rfl, rfl, rfl⟩)⟩
    · exact ⟨_, rfl, rfl, rfl, .inr (.inr ⟨g, hg, rfl, rfl, rfl⟩)⟩
  | none =>
    rw [h1] at h
    dsimp only at h
    cases h2 : _try_voltage_max q us with
    | some a0 =>
      rw [h2] at h
      dsimp only at h
      injection h with h
      subst h
      obtain ⟨u, hu, s, rfl⟩ := _try_voltage_max_shape h2
      exact ⟨_, rfl, rfl, rfl, .inl ⟨u, hu, rfl, rfl, rfl⟩⟩
    | none =>
    rw [h2] at h
    dsimp only at h
    cases h3 : _try_max_current q us with
    | some a0 =>
      rw [h3] at h
      dsimp only at h
      injection h with h
      subst h
      obtain ⟨u, hu, s, rfl⟩ := _try_max_current_shape h3
      exact ⟨_, rfl, rfl, rfl, .inl ⟨u, hu, rfl, rfl, rfl⟩⟩
    | none =>
    rw [h3] at h
    dsimp only at h
    cases h4 : _try_max_capacity q us with
    | some a0 =>
      rw [h4] at h
      dsimp only at h
      injection h with h
      subst h
      obtain ⟨u, hu, s, rfl⟩ := _try_max_capacity_shape h4
      exact ⟨_, rfl, rfl, rfl, .inl ⟨u, hu, rfl, rfl, rfl⟩⟩
    | none =>
    rw [h4] at h
    dsimp only at h
    cases h5 : _try_unit_by_intent q us with
    | some a0 =>
      rw [h5] at h
      dsimp only at h
      injection h with h
      subst h
      obtain ⟨u, hu, s, rfl⟩ := _try_unit_by_intent_shape h5
      exact ⟨_, rfl, rfl, rfl, .inl ⟨u, hu, rfl, rfl, rfl⟩⟩
    | none =>
    rw [h5] at h
    dsimp only at h
    cases h6 : _try_unit_lookup q us with
    | some a0 =>
      rw [h6] at h
      dsimp only at h
      injection h with h
      subst h
      obtain ⟨u, hu, s, rfl⟩ := _try_unit_lookup_shape h6
      exact ⟨_, rfl, rfl, rfl, .inl ⟨u, hu, rfl, rfl, rfl⟩⟩
    | none =>
      rw [h6] at h
      exact absurd h (by simp)

/-- The answer the bijection scenario produces, for the C10 witness: pin 6
resolves through the inverted mapping to the left label `GND`. -/
def exC10answer : AnswerWithProof := mkBijAnswer "GND" exC9bijection

theorem claim_C10_single_proof_point_witness :
    ∃ p, exC10answer.proof = [p] ∧ p.source_id = exC10answer.source_id ∧
      p.source_type = exC10answer.source_type ∧
      ((∃ u ∈ ([] : List Unit), exC10answer.source_id = some u.id ∧
          exC10answer.source_type = some "unit" ∧ p.page = u.page) ∨
       (∃ b ∈ [exC9bijection], exC10answer.source_id = some b.id ∧
          exC10answer.source_type = some "bijection" ∧ p.page = b.page) ∨
       (∃ g ∈ ([] : List Grid), exC10answer.source_id = some g.id ∧
          exC10answer.source_type = some "grid" ∧ p.page = g.page)) :=
  claim_C10_single_proof_point "What is pin 6?" [] [exC9bijection] [] exC10answer (by decide)

end Akili
